import Mathlib

/-!
# rss-in-notion: the pull and clean passes of `main.go`

A shallow embedding of `main.go`.  The two collaborators of the program, the
feed parser (`gofeed`) and the document store client (`notionapi`), are taken
as parameters: the parser is a function from a URL to a parsed feed or an
error, the client is a record of operations over an arbitrary store state.
Every pass returns the calls it made on the client, in order, so that what
a pass "issues" is a list that theorems can talk about.

Conventions.
* `time.Time` is an instant counted in nanoseconds (an `Int`); `Before` is
  `<` on instants.  The feed's and the store's timestamps carry no monotonic
  clock reading, so Go compares them by instant.
* `time.Duration` is a signed 64-bit count of nanoseconds and `int` is taken
  as 64 bits wide: arithmetic on them wraps, see `wrapInt64`.  `Add` is exact:
  `time.Time` counts seconds in 64 bits, and a duration moves an instant by
  at most some 292 years.
* A search reads the store and does not change it; a create or an update
  returns the store it leaves behind.
* A Go `map[string]V` is an association list read newest binding first.
* An `error` is its message.
-/

namespace RssInNotion

/-! ## Go runtime -/

/-- Go `map[string]V`: the bindings, newest first. -/
abbrev GoMap (V : Type) := List (String × V)

/-- Map read `m[k]` with the comma-ok result as an option. -/
def mapGet {V : Type} (m : GoMap V) (k : String) : Option V :=
  List.lookup k m

/-- Map write `m[k] = v`: the new binding shadows any older one. -/
def mapSet {V : Type} (m : GoMap V) (k : String) (v : V) : GoMap V :=
  (k, v) :: m

/-- Two's complement wrap of an integer into the signed 64-bit range. -/
def wrapInt64 (x : Int) : Int :=
  (x + 9223372036854775808) % 18446744073709551616 - 9223372036854775808

/-- Go `time.Time`: an instant, in nanoseconds. -/
abbrev Time := Int

/-- Go `time.Second`, a `time.Duration` (nanoseconds). -/
def Second : Int := 1000000000

/-- Go `t.Before(u)`. -/
def Before (t u : Time) : Bool := decide (t < u)

/-- Go `t.Add(d)` for a duration `d`. -/
def Add (t : Time) (d : Int) : Time := t + d

/-! ## gofeed -/

/-- The fields of `gofeed.Item` the program reads. -/
structure gofeed.Item where
  Title : String
  Link : String
  PublishedParsed : Option Time
deriving DecidableEq, Repr

/-- The fields of `gofeed.Feed` the program reads. -/
structure gofeed.Feed where
  Title : String
  Items : List gofeed.Item
deriving DecidableEq, Repr

/-! ## notionapi -/

/-- The text content of one `notionapi.RichText`. -/
structure notionapi.RichText where
  Content : String
deriving DecidableEq, Repr

/-- The type `notionapi.Option` (a select option); renamed because inside the
`notionapi` names it would hide the option type of Lean. -/
structure notionapi.SelectOption where
  Name : String
deriving DecidableEq, Repr

/-- The type `notionapi.DateObject`: both ends are nullable pointers. -/
structure notionapi.DateObject where
  Start : Option Time
  End : Option Time
deriving DecidableEq, Repr

/-- The interface `notionapi.Property` with the concrete property types the
program builds or asserts on; `Other` stands for every other property type.
`DateProperty.Date` is a pointer to a `DateObject` (`PropertiesFromItem`
stores `&notionapi.DateObject{...}` in it) and may be nil; `SelectProperty`
holds its option by value. -/
inductive notionapi.Property where
  | TitleProperty (Title : List notionapi.RichText)
  | URLProperty (URL : String)
  | MultiSelectProperty (MultiSelect : List notionapi.SelectOption)
  | DateProperty (Date : Option notionapi.DateObject)
  | SelectProperty (Select : notionapi.SelectOption)
  | Other (typ : String)
deriving DecidableEq, Repr

/-- The fields of `notionapi.Page` the program reads. -/
structure notionapi.Page where
  ID : String
  Properties : GoMap notionapi.Property
deriving DecidableEq, Repr

/-- One element of `SearchResponse.Results`: a page or a database. -/
inductive notionapi.Object where
  | Page (p : notionapi.Page)
  | Database (id : String)
deriving DecidableEq, Repr

/-- The filter of a `notionapi.SearchRequest`. -/
structure notionapi.SearchFilter where
  property : String
  value : String
deriving DecidableEq, Repr

/-- The type `notionapi.SortObject`. -/
structure notionapi.SortObject where
  Timestamp : String
  Direction : String
deriving DecidableEq, Repr

/-- The type `notionapi.SearchRequest`; `SortBy` is its field `Sort`. -/
structure notionapi.SearchRequest where
  Query : String
  Filter : notionapi.SearchFilter
  SortBy : notionapi.SortObject
deriving DecidableEq, Repr

/-- The type `notionapi.Parent`; `ParentType` is its field `Type`. -/
structure notionapi.Parent where
  ParentType : String
  DatabaseID : String
deriving DecidableEq, Repr

/-- The type `notionapi.PageCreateRequest`. -/
structure notionapi.PageCreateRequest where
  Parent : notionapi.Parent
  Properties : GoMap notionapi.Property
deriving DecidableEq, Repr

/-- The type `notionapi.PageUpdateRequest`. -/
structure notionapi.PageUpdateRequest where
  Properties : GoMap notionapi.Property
  Archived : Bool
deriving DecidableEq, Repr

/-- The constant `notionapi.ParentTypeDatabaseID`. -/
def notionapi.ParentTypeDatabaseID : String := "database_id"

/-- The constant `notionapi.TimestampLastEdited`. -/
def notionapi.TimestampLastEdited : String := "last_edited_time"

/-- The constant `notionapi.SortOrderDESC`. -/
def notionapi.SortOrderDESC : String := "descending"

/-- The three client operations the program uses, over a store state `σ`.
`SearchDo` reads the store; `PageCreate` and `PageUpdate` return the new
store state and the error, if any. -/
structure Client (σ : Type) where
  SearchDo : σ → notionapi.SearchRequest → Except String (List notionapi.Object)
  PageCreate : σ → notionapi.PageCreateRequest → σ × Option String
  PageUpdate : σ → String → notionapi.PageUpdateRequest → σ × Option String

/-! ## main.go -/

/-- The struct `Feed` of `main.go`. -/
structure Feed where
  URL : String
  Title : String
  Tags : List String
  Expires : Int
deriving DecidableEq, Repr

/-- The struct `Config` of `main.go`; `CleanStatus` is `Clean.Status`. -/
structure Config where
  Expires : Int
  CleanStatus : List String
  Feeds : List Feed
deriving DecidableEq, Repr

/-- What the program takes from its surroundings: the feed parser
(`ParseURLWithContext`), the package variable `client` and the package
variable `notionDatabaseID`. -/
structure Env (σ : Type) where
  ParseURL : String → Except String gofeed.Feed
  client : Client σ
  notionDatabaseID : String

/-- A call made on the client. -/
inductive Call where
  | Search (req : notionapi.SearchRequest)
  | Create (req : notionapi.PageCreateRequest)
  | Update (pageID : String) (req : notionapi.PageUpdateRequest)
deriving DecidableEq, Repr

/-- The state a pass threads through: the store, the client calls made so
far and the lines written to the log. -/
structure Run (σ : Type) where
  store : σ
  calls : List Call
  log : List String

/-- How a function ends: it returns its `error` (nil is `none`), or the
goroutine panics. -/
inductive Outcome where
  | returned (err : Option String)
  | panicked
deriving DecidableEq, Repr

/-- The function `PropertiesFromItem`. -/
def PropertiesFromItem (feed : Feed) (item : gofeed.Item) : GoMap notionapi.Property :=
  let props : GoMap notionapi.Property :=
    mapSet
      (mapSet [] "Name" (.TitleProperty [{ Content := item.Title ++ " | " ++ feed.Title }]))
      "URL" (.URLProperty item.Link)
  let tags : List notionapi.SelectOption :=
    feed.Tags.foldl (fun tags v => tags ++ [{ Name := v }]) [{ Name := feed.Title }]
  let props := mapSet props "Tags" (.MultiSelectProperty tags)
  match item.PublishedParsed with
  | some t => mapSet props "Publish" (.DateProperty (some { Start := some t, End := none }))
  | none => props

/-- The function `CreatePage`. -/
def CreatePage {σ : Type} (env : Env σ) (feed : Feed) (item : gofeed.Item) (st : Run σ) :
    Run σ × Option String :=
  let req : notionapi.PageCreateRequest :=
    { Parent := { ParentType := notionapi.ParentTypeDatabaseID, DatabaseID := env.notionDatabaseID },
      Properties := PropertiesFromItem feed item }
  let r := env.client.PageCreate st.store req
  ({ st with store := r.1, calls := st.calls ++ [Call.Create req] }, r.2)

/-- The function `UpdatePage`. -/
def UpdatePage {σ : Type} (env : Env σ) (pageID : String) (feed : Feed) (item : gofeed.Item)
    (st : Run σ) : Run σ × Option String :=
  let req : notionapi.PageUpdateRequest :=
    { Properties := PropertiesFromItem feed item, Archived := false }
  let r := env.client.PageUpdate st.store pageID req
  ({ st with store := r.1, calls := st.calls ++ [Call.Update pageID req] }, r.2)

/-- The function `DeletePage`. -/
def DeletePage {σ : Type} (env : Env σ) (pageID : String) (st : Run σ) : Run σ × Option String :=
  let req : notionapi.PageUpdateRequest := { Properties := [], Archived := true }
  let r := env.client.PageUpdate st.store pageID req
  ({ st with store := r.1, calls := st.calls ++ [Call.Update pageID req] }, r.2)

/-- The search request both passes build from the feed title. -/
def searchRequest (title : String) : notionapi.SearchRequest :=
  { Query := title,
    Filter := { property := "object", value := "page" },
    SortBy := { Timestamp := notionapi.TimestampLastEdited,
                Direction := notionapi.SortOrderDESC } }

/-- The assignment `if feed.Title == "" { feed.Title = fd.Title }` on the
pass's own copy of the feed. -/
def resolveTitle (feed : Feed) (fd : gofeed.Feed) : Feed :=
  if feed.Title = "" then { feed with Title := fd.Title } else feed

/-- The value of `expires` in both passes:
`time.Now().Add(-time.Duration(feed.Expires) * time.Second)`. -/
def expiresAt (now : Time) (feedExpires : Int) : Time :=
  Add now (wrapInt64 (wrapInt64 (-(wrapInt64 feedExpires)) * Second))

/-- One iteration of the first loop of `runPull`: record the page ID under
the page's URL. -/
def linksStep (links : GoMap String) (r : notionapi.Object) : GoMap String :=
  match r with
  | .Page p =>
    match mapGet p.Properties "URL" with
    | some (.URLProperty url) => if url = "" then links else mapSet links url p.ID
    | _ => links
  | .Database _ => links

/-- The first loop of `runPull`: the map `links` from stored URL to page ID. -/
def buildLinks (results : List notionapi.Object) : GoMap String :=
  results.foldl linksStep []

/-- One iteration of the second loop of `runPull`. -/
def pullItem {σ : Type} (env : Env σ) (feed : Feed) (links : GoMap String) (expires : Time)
    (st : Run σ) (item : gofeed.Item) : Run σ :=
  match item.PublishedParsed with
  | none => st
  | some published =>
    if Before published expires then st
    else
      match mapGet links item.Link with
      | some id =>
        let r := UpdatePage env id feed item st
        match r.2 with
        | some err => { r.1 with log := r.1.log ++ [err] }
        | none => { r.1 with log := r.1.log ++ ["updated " ++ item.Link] }
      | none =>
        let r := CreatePage env feed item st
        match r.2 with
        | some err => { r.1 with log := r.1.log ++ [err] }
        | none => { r.1 with log := r.1.log ++ ["created " ++ item.Link] }

/-- The function `runPull`, started on the store `s` at the instant `now`. -/
def runPull {σ : Type} (env : Env σ) (now : Time) (feed : Feed) (s : σ) : Run σ × Outcome :=
  match env.ParseURL feed.URL with
  | .error err => ({ store := s, calls := [], log := [] }, .returned (some err))
  | .ok fd =>
    let feed := resolveTitle feed fd
    let req := searchRequest feed.Title
    let st : Run σ := { store := s, calls := [Call.Search req], log := [] }
    match env.client.SearchDo s req with
    | .error err => (st, .returned (some err))
    | .ok results =>
      let links := buildLinks results
      let expires := expiresAt now feed.Expires
      (fd.Items.foldl (pullItem env feed links expires) st, .returned none)

/-- The second loop of `runCleanByStatus`.  Reading `publishProp.Date.Start`
through a nil `Date` panics and ends the pass. -/
def cleanLoop {σ : Type} (env : Env σ) (statusMap : GoMap Unit) (expires : Time) :
    List notionapi.Object → Run σ → Run σ × Outcome
  | [], st => (st, .returned none)
  | .Database _ :: rs, st => cleanLoop env statusMap expires rs st
  | .Page p :: rs, st =>
    match mapGet p.Properties "Status" with
    | some (.SelectProperty statusSelect) =>
      match mapGet statusMap statusSelect.Name with
      | none => cleanLoop env statusMap expires rs st
      | some _ =>
        match mapGet p.Properties "Publish" with
        | some (.DateProperty date) =>
          match date with
          | none => (st, .panicked)
          | some dateObject =>
            match dateObject.Start with
            | none => cleanLoop env statusMap expires rs st
            | some start =>
              if Before start expires then
                let r := DeletePage env p.ID st
                match r.2 with
                | some err =>
                  cleanLoop env statusMap expires rs { r.1 with log := r.1.log ++ [err] }
                | none =>
                  cleanLoop env statusMap expires rs
                    { r.1 with log := r.1.log ++ ["deleted " ++ p.ID] }
              else cleanLoop env statusMap expires rs st
        | _ => cleanLoop env statusMap expires rs st
    | _ => cleanLoop env statusMap expires rs st

/-- The function `runCleanByStatus`, started on the store `s` at the instant
`now`. -/
def runCleanByStatus {σ : Type} (env : Env σ) (now : Time) (feed : Feed) (status : List String)
    (s : σ) : Run σ × Outcome :=
  match env.ParseURL feed.URL with
  | .error err => ({ store := s, calls := [], log := [] }, .returned (some err))
  | .ok fd =>
    let feed := resolveTitle feed fd
    let req := searchRequest feed.Title
    let st : Run σ := { store := s, calls := [Call.Search req], log := [] }
    match env.client.SearchDo s req with
    | .error err => (st, .returned (some err))
    | .ok results =>
      let statusMap : GoMap Unit := status.foldl (fun m v => mapSet m v ()) []
      let expires := expiresAt now feed.Expires
      cleanLoop env statusMap expires results st

/-- The body of the loop `for k, v := range c.Feeds` of `main`:
`if v.Expires == 0 { c.Feeds[k].Expires = c.Expires }`. -/
def defaultExpiresAt (c : Config) (k : Nat) : Config :=
  match c.Feeds[k]? with
  | some v =>
    if v.Expires = 0 then { c with Feeds := c.Feeds.set k { v with Expires := c.Expires } }
    else c
  | none => c

/-- The loop of `main` that sets the default expiry, over the indices of
`c.Feeds` in order. -/
def applyDefaults (c : Config) : Config :=
  (List.range c.Feeds.length).foldl defaultExpiresAt c

/-- The loops `for _, f := range c.Feeds` of `main`: run `pass` on a copy of
each feed in turn, the `n`-th pass reading the clock as `clock n`, and log
the error a pass returns.  A panic ends the process. -/
def forFeeds {σ : Type} (pass : Time → Feed → σ → Run σ × Outcome) (clock : Nat → Time) :
    Nat → List Feed → Run σ → Run σ × Outcome
  | _, [], st => (st, .returned none)
  | n, f :: fs, st =>
    let r := pass (clock n) f st.store
    let st : Run σ :=
      { store := r.1.store, calls := st.calls ++ r.1.calls, log := st.log ++ r.1.log }
    match r.2 with
    | .panicked => (st, .panicked)
    | .returned (some err) => forFeeds pass clock (n + 1) fs { st with log := st.log ++ [err] }
    | .returned none => forFeeds pass clock (n + 1) fs st

/-- The function `main` from the decoded configuration on: `arg0` is
`flag.Arg(0)`.  The result holds the variable `c` as it stands when `main`
ends, then the calls made and how the process ended. -/
def main {σ : Type} (env : Env σ) (clock : Nat → Time) (arg0 : String) (c : Config) (s : σ) :
    Config × Run σ × Outcome :=
  let c := applyDefaults c
  let st : Run σ := { store := s, calls := [], log := [] }
  if arg0 = "pull" then (c, forFeeds (runPull env) clock 0 c.Feeds st)
  else if arg0 = "clean" then
    (c, forFeeds (fun now f => runCleanByStatus env now f c.CleanStatus) clock 0 c.Feeds st)
  else (c, st, .returned none)

/-! ## Vocabulary of the statements -/

/-- An item passes the two `continue` tests of `runPull`: it has a published
timestamp and that timestamp is not before `expires`. -/
def keptItem (expires : Time) (item : gofeed.Item) : Bool :=
  match item.PublishedParsed with
  | some published => !Before published expires
  | none => false

/-- The write `runPull` makes for an item it keeps, read off the map
`links`. -/
def pullWrite {σ : Type} (env : Env σ) (feed : Feed) (links : GoMap String)
    (item : gofeed.Item) : Call :=
  match mapGet links item.Link with
  | some id => Call.Update id { Properties := PropertiesFromItem feed item, Archived := false }
  | none =>
    Call.Create
      { Parent := { ParentType := notionapi.ParentTypeDatabaseID, DatabaseID := env.notionDatabaseID },
        Properties := PropertiesFromItem feed item }

/-- A call is a create or an update (an archive is an update). -/
def Call.isWrite : Call → Bool
  | .Search _ => false
  | .Create _ => true
  | .Update _ _ => true

/-- A call is a create. -/
def Call.isCreate : Call → Bool
  | .Create _ => true
  | _ => false

/-- The pages among the search results, in result order. -/
def candidatePages (results : List notionapi.Object) : List notionapi.Page :=
  results.filterMap (fun r => match r with | .Page p => some p | .Database _ => none)

/-- The URL a page carries in a property named "URL" of URL type. -/
def pageURL (p : notionapi.Page) : Option String :=
  match mapGet p.Properties "URL" with
  | some (.URLProperty url) => some url
  | _ => none

/-- Spec side of the correlation: the last candidate, in search-result
order, whose URL property equals `link`, the URL being non-empty. -/
def lastMatch (results : List notionapi.Object) (link : String) : Option notionapi.Page :=
  ((candidatePages results).filter (fun p => decide (pageURL p = some link ∧ link ≠ ""))).getLast?

/-- Spec side of the create-or-update decision for one item. -/
def specWrite {σ : Type} (env : Env σ) (feed : Feed) (results : List notionapi.Object)
    (item : gofeed.Item) : Call :=
  match lastMatch results item.Link with
  | some p => Call.Update p.ID { Properties := PropertiesFromItem feed item, Archived := false }
  | none =>
    Call.Create
      { Parent := { ParentType := notionapi.ParentTypeDatabaseID, DatabaseID := env.notionDatabaseID },
        Properties := PropertiesFromItem feed item }

/-- Spec side of the freshness filter: the item has a published timestamp
and it is not strictly before `cutoff`. -/
def freshItem (cutoff : Int) (item : gofeed.Item) : Bool :=
  match item.PublishedParsed with
  | some published => decide (¬ published < cutoff)
  | none => false

/-- The expiry window, in nanoseconds, fits a `time.Duration`: it is at most
9223372036 seconds (some 292 years) either way. -/
def DurationFits (feedExpires : Int) : Prop :=
  -9223372036 ≤ feedExpires ∧ feedExpires ≤ 9223372036

instance (feedExpires : Int) : Decidable (DurationFits feedExpires) := by
  unfold DurationFits
  infer_instance

/-- The field set a create or update carries (none for a search). -/
def Call.properties : Call → GoMap notionapi.Property
  | .Search _ => []
  | .Create req => req.Properties
  | .Update _ req => req.Properties

/-- The name of the select option a page carries in a property named
"Status" of select type. -/
def pageStatus (p : notionapi.Page) : Option String :=
  match mapGet p.Properties "Status" with
  | some (.SelectProperty statusSelect) => some statusSelect.Name
  | _ => none

/-- The start value a page carries in a property named "Publish" of date
type. -/
def publishStart (p : notionapi.Page) : Option Time :=
  match mapGet p.Properties "Publish" with
  | some (.DateProperty (some dateObject)) => dateObject.Start
  | _ => none

/-- The page's status is in the target status list. -/
def targetStatus (status : List String) (p : notionapi.Page) : Bool :=
  match pageStatus p with
  | some name => decide (name ∈ status)
  | none => false

/-- Spec side of the cleaner's test: the page's status is in the target
list, it has a Publish date with a start value, and that start is strictly
before `cutoff`. -/
def staleTarget (status : List String) (cutoff : Int) (p : notionapi.Page) : Bool :=
  targetStatus status p &&
    match publishStart p with
    | some start => decide (start < cutoff)
    | none => false

/-- The page has a Publish date property whose `Date` pointer is nil. -/
def nilPublishDate (p : notionapi.Page) : Bool :=
  decide (mapGet p.Properties "Publish" = some (.DateProperty none))

/-- The call `DeletePage` makes: an update that archives the page. -/
def archiveCall (p : notionapi.Page) : Call :=
  Call.Update p.ID { Properties := [], Archived := true }

/-- The set `statusMap` of `runCleanByStatus`. -/
def statusMapOf (status : List String) : GoMap Unit :=
  status.foldl (fun m v => mapSet m v ()) []

/-! ## The record store of the idempotence property

The store is not part of the program.  The idempotence property assumes one
in which every create succeeds and search returns every record that is not
archived, with the fields it was written with; the definitions below are
that store.  Its state is the list of its records in creation order, the
record at position `i` having the ID `pageID i`; `order` is the order in
which search returns the records and `updateFails` decides which update
calls fail. -/

/-- A record of the store: its fields and its archived flag. -/
structure StoredPage where
  Properties : GoMap notionapi.Property
  Archived : Bool
deriving DecidableEq, Repr

/-- The state of the store: its records, in creation order. -/
abbrev Store := List StoredPage

/-- The records that are not archived, as pages, `i` being the position of
the first record of the list. -/
def visibleFrom (pageID : Nat → String) : Nat → Store → List notionapi.Object
  | _, [] => []
  | i, r :: rs =>
    if r.Archived then visibleFrom pageID (i + 1) rs
    else .Page { ID := pageID i, Properties := r.Properties } :: visibleFrom pageID (i + 1) rs

/-- An update applied to a record: the fields of the request overwrite the
stored ones, the others stay, and the archived flag is the request's. -/
def applyUpdate (req : notionapi.PageUpdateRequest) (r : StoredPage) : StoredPage :=
  { Properties := req.Properties ++ r.Properties, Archived := req.Archived }

/-- The store after an update of the record whose ID is `id`. -/
def updateFrom (pageID : Nat → String) (id : String) (req : notionapi.PageUpdateRequest) :
    Nat → Store → Store
  | _, [] => []
  | i, r :: rs =>
    (if pageID i = id then applyUpdate req r else r) :: updateFrom pageID id req (i + 1) rs

/-- Some record has the ID `id`. -/
def knownFrom (pageID : Nat → String) (id : String) : Nat → Store → Bool
  | _, [] => false
  | i, _ :: rs => decide (pageID i = id) || knownFrom pageID id (i + 1) rs

/-- The client of the store. -/
def storeClient (pageID : Nat → String) (order : List notionapi.Object → List notionapi.Object)
    (updateFails : Store → String → Bool) : Client Store :=
  { SearchDo := fun s _ => .ok (order (visibleFrom pageID 0 s)),
    PageCreate := fun s req => (s ++ [{ Properties := req.Properties, Archived := false }], none),
    PageUpdate := fun s id req =>
      if updateFails s id then (s, some "update failed")
      else if knownFrom pageID id 0 s then (updateFrom pageID id req 0 s, none)
      else (s, some "object not found") }

/-- The environment of a program run against the store. -/
def storeEnv (parse : String → Except String gofeed.Feed) (pageID : Nat → String)
    (order : List notionapi.Object → List notionapi.Object)
    (updateFails : Store → String → Bool) (databaseID : String) : Env Store :=
  { ParseURL := parse,
    client := storeClient pageID order updateFails,
    notionDatabaseID := databaseID }

/-- The store holds a record that is not archived and carries `link` in a
property named "URL" of URL type. -/
def hasURL (s : Store) (link : String) : Prop :=
  ∃ (j : Nat) (r : StoredPage), s[j]? = some r ∧ r.Archived = false ∧
    mapGet r.Properties "URL" = some (.URLProperty link)

/-- Every record of `s` is still in `t`, at the same position, with the same
archived flag and the same "URL" property. -/
def Keeps (s t : Store) : Prop :=
  ∀ (j : Nat) (r : StoredPage), s[j]? = some r →
    ∃ r' : StoredPage, t[j]? = some r' ∧ r'.Archived = r.Archived ∧
      mapGet r'.Properties "URL" = mapGet r.Properties "URL"

/-- Every binding of `links` is the URL and the ID of a record of `s` that is
not archived. -/
def Linked (pageID : Nat → String) (s : Store) (links : GoMap String) : Prop :=
  ∀ link id, mapGet links link = some id →
    ∃ (j : Nat) (r : StoredPage), s[j]? = some r ∧ r.Archived = false ∧ id = pageID j ∧
      mapGet r.Properties "URL" = some (.URLProperty link)

/-! ## Concrete inputs -/

/-- A client whose search returns `results` and whose writes all succeed. -/
def succeedingClient (results : List notionapi.Object) : Client Unit :=
  { SearchDo := fun _ _ => .ok results,
    PageCreate := fun _ _ => ((), none),
    PageUpdate := fun _ _ _ => ((), none) }

/-- A client whose search returns `results` and whose writes all fail. -/
def failingClient (results : List notionapi.Object) : Client Unit :=
  { SearchDo := fun _ _ => .ok results,
    PageCreate := fun _ _ => ((), some "create failed"),
    PageUpdate := fun _ _ _ => ((), some "update failed") }

/-- An instant in January 2027, in nanoseconds since the Unix epoch. -/
def sampleNow : Time := 1800000000000000000

/-- A feed configuration without a title, with a window of 3600 seconds. -/
def sampleFeed : Feed :=
  { URL := "https://x/feed", Title := "", Tags := ["news", "tech"], Expires := 3600 }

/-- Three items: one fresh and already stored, one fresh and new, one
without a published timestamp. -/
def sampleItems : List gofeed.Item :=
  [ { Title := "one", Link := "https://x/1", PublishedParsed := some 1799999000000000000 },
    { Title := "two", Link := "https://x/2", PublishedParsed := some 1800000000000000000 },
    { Title := "three", Link := "https://x/3", PublishedParsed := none } ]

/-- The parsed feed served at every URL. -/
def sampleParsed : gofeed.Feed := { Title := "X", Items := sampleItems }

/-- Search results: two pages with the URL of the first item, a page with an
empty URL and a database. -/
def sampleResults : List notionapi.Object :=
  [ .Page { ID := "p1", Properties := [("URL", .URLProperty "https://x/1")] },
    .Database "d1",
    .Page { ID := "p2", Properties := [("URL", .URLProperty "https://x/1")] },
    .Page { ID := "p3", Properties := [("URL", .URLProperty "")] } ]

/-- An environment whose writes all succeed. -/
def sampleEnv : Env Unit :=
  { ParseURL := fun _ => .ok sampleParsed,
    client := succeedingClient sampleResults,
    notionDatabaseID := "db" }

/-- An environment whose writes all fail. -/
def sampleFailingEnv : Env Unit :=
  { ParseURL := fun _ => .ok sampleParsed,
    client := failingClient sampleResults,
    notionDatabaseID := "db" }

/-- An item published exactly at the cutoff of `sampleFeed` at `sampleNow`. -/
def boundaryItem : gofeed.Item :=
  { Title := "edge", Link := "https://x/9",
    PublishedParsed := some (1800000000000000000 - 3600 * 1000000000) }

/-- An environment serving only `boundaryItem`, with an empty store. -/
def boundaryEnv : Env Unit :=
  { ParseURL := fun _ => .ok { Title := "X", Items := [boundaryItem] },
    client := succeedingClient [],
    notionDatabaseID := "db" }

/-- A feed whose window, 9223372037 seconds, is the least positive one that
does not fit a `time.Duration`. -/
def overflowFeed : Feed :=
  { URL := "https://x/feed", Title := "X", Tags := [], Expires := 9223372037 }

/-- An item published at `sampleNow`. -/
def currentItem : gofeed.Item :=
  { Title := "now", Link := "https://x/7", PublishedParsed := some 1800000000000000000 }

/-- An environment serving only `currentItem`, with an empty store. -/
def overflowEnv : Env Unit :=
  { ParseURL := fun _ => .ok { Title := "X", Items := [currentItem] },
    client := succeedingClient [],
    notionDatabaseID := "db" }

/-- An environment whose feed cannot be fetched. -/
def fetchErrorEnv : Env Unit :=
  { ParseURL := fun _ => .error "fetch failed",
    client := succeedingClient sampleResults,
    notionDatabaseID := "db" }

/-- An environment whose search fails. -/
def searchErrorEnv : Env Unit :=
  { ParseURL := fun _ => .ok sampleParsed,
    client :=
      { SearchDo := fun _ _ => .error "search failed",
        PageCreate := fun _ _ => ((), none),
        PageUpdate := fun _ _ _ => ((), none) },
    notionDatabaseID := "db" }

/-- A page with status "Done" whose Publish date starts at `sampleNow`. -/
def freshDonePage : notionapi.Page :=
  { ID := "q1",
    Properties :=
      [ ("Status", .SelectProperty { Name := "Done" }),
        ("Publish", .DateProperty (some { Start := some 1800000000000000000, End := none })) ] }

/-- A page with status "Done" published two hours before `sampleNow`. -/
def staleDonePage : notionapi.Page :=
  { ID := "q2",
    Properties :=
      [ ("Status", .SelectProperty { Name := "Done" }),
        ("Publish", .DateProperty (some { Start := some 1799992800000000000, End := none })) ] }

/-- A page with status "Todo" published two hours before `sampleNow`. -/
def staleTodoPage : notionapi.Page :=
  { ID := "q3",
    Properties :=
      [ ("Status", .SelectProperty { Name := "Todo" }),
        ("Publish", .DateProperty (some { Start := some 1799992800000000000, End := none })) ] }

/-- A page with status "Done" and no Publish property. -/
def undatedDonePage : notionapi.Page :=
  { ID := "q4", Properties := [("Status", .SelectProperty { Name := "Done" })] }

/-- A page with status "Done" whose Publish date property is empty: the
store sends `"date": null` and the client decodes a nil `Date`. -/
def emptyDateDonePage : notionapi.Page :=
  { ID := "q5",
    Properties :=
      [ ("Status", .SelectProperty { Name := "Done" }), ("Publish", .DateProperty none) ] }

/-- An environment for the cleaner with the given search results. -/
def cleanEnv (results : List notionapi.Object) : Env Unit :=
  { ParseURL := fun _ => .ok { Title := "X", Items := [] },
    client := succeedingClient results,
    notionDatabaseID := "db" }

/-- Candidates for the cleaner: fresh, stale "Todo", undated, stale "Done". -/
def cleanResults : List notionapi.Object :=
  [.Page freshDonePage, .Page staleTodoPage, .Page undatedDonePage, .Page staleDonePage]

/-- Page IDs for the sample store: "p", "pp", "ppp", and so on. -/
def pageIDOf (i : Nat) : String :=
  String.mk (List.replicate (i + 1) 'p')

/-- A fresh item without a link. -/
def linklessItem : gofeed.Item :=
  { Title := "untitled", Link := "", PublishedParsed := some 1800000000000000000 }

/-- An environment on the record store serving the given items; search
returns the records newest first and no update fails. -/
def sampleStoreEnv (items : List gofeed.Item) : Env Store :=
  storeEnv (fun _ => .ok { Title := "X", Items := items }) pageIDOf List.reverse
    (fun _ _ => false) "db"

/-- A store holding one record, with the URL of the first sample item. -/
def sampleStore : Store :=
  [{ Properties := [("URL", .URLProperty "https://x/1")], Archived := false }]

/-! ## Lemmas on the runtime model -/

theorem wrapInt64_of_fits (x : Int) (h1 : -9223372036854775808 ≤ x)
    (h2 : x < 9223372036854775808) : wrapInt64 x = x := by
  unfold wrapInt64
  rw [Int.emod_eq_of_lt (by omega) (by omega)]
  omega

theorem expiresAt_of_fits (now e : Int) (h : DurationFits e) :
    expiresAt now e = now - e * 1000000000 := by
  obtain ⟨h1, h2⟩ := h
  unfold expiresAt Add Second
  rw [wrapInt64_of_fits e (by omega) (by omega), wrapInt64_of_fits (-e) (by omega) (by omega),
    wrapInt64_of_fits (-e * 1000000000) (by omega) (by omega)]
  ring

theorem resolveTitle_Expires (feed : Feed) (fd : gofeed.Feed) :
    (resolveTitle feed fd).Expires = feed.Expires := by
  unfold resolveTitle
  split <;> rfl

/-! ## Lemmas on `runPull` -/

theorem pullItem_calls {σ : Type} (env : Env σ) (feed : Feed) (links : GoMap String)
    (expires : Time) (st : Run σ) (item : gofeed.Item) :
    (pullItem env feed links expires st item).calls =
      st.calls ++ (if keptItem expires item then [pullWrite env feed links item] else []) := by
  unfold pullItem keptItem pullWrite
  cases hp : item.PublishedParsed with
  | none => simp
  | some t =>
    simp only
    by_cases hb : Before t expires = true
    · simp [hb]
    · have hb2 : Before t expires = false := by simpa using hb
      simp only [hb2, Bool.false_eq_true, if_false, Bool.not_false, if_true]
      cases hl : mapGet links item.Link with
      | none =>
        simp only [CreatePage]
        split <;> rfl
      | some id =>
        simp only [UpdatePage]
        split <;> rfl

theorem pullLoop_calls {σ : Type} (env : Env σ) (feed : Feed) (links : GoMap String)
    (expires : Time) (items : List gofeed.Item) (st : Run σ) :
    (items.foldl (pullItem env feed links expires) st).calls =
      st.calls ++ (items.filter (keptItem expires)).map (pullWrite env feed links) := by
  induction items generalizing st with
  | nil => simp
  | cons item rest ih =>
    rw [List.foldl_cons, ih, pullItem_calls]
    cases hk : keptItem expires item <;> simp [List.filter_cons, hk]

theorem runPull_calls {σ : Type} (env : Env σ) (now : Time) (feed : Feed) (s : σ)
    (fd : gofeed.Feed) (results : List notionapi.Object)
    (hfetch : env.ParseURL feed.URL = .ok fd)
    (hsearch : env.client.SearchDo s (searchRequest (resolveTitle feed fd).Title) = .ok results) :
    (runPull env now feed s).1.calls =
        Call.Search (searchRequest (resolveTitle feed fd).Title) ::
          (fd.Items.filter (keptItem (expiresAt now feed.Expires))).map
            (pullWrite env (resolveTitle feed fd) (buildLinks results)) ∧
      (runPull env now feed s).2 = .returned none := by
  unfold runPull
  simp only [hfetch, hsearch, pullLoop_calls, resolveTitle_Expires]
  simp

/-! ## The map `links` against the search results -/

theorem linksStep_get (links : GoMap String) (r : notionapi.Object) (link : String) :
    mapGet (linksStep links r) link =
      match r with
      | .Page p =>
        if pageURL p = some link ∧ link ≠ "" then some p.ID else mapGet links link
      | .Database _ => mapGet links link := by
  cases r with
  | Database id => rfl
  | Page p =>
    cases hprop : mapGet p.Properties "URL" with
    | none => simp [linksStep, pageURL, hprop]
    | some prop =>
      cases prop with
      | URLProperty url =>
        have hurl : pageURL p = some url := by simp [pageURL, hprop]
        simp only [linksStep, hprop, hurl]
        by_cases hempty : url = ""
        · subst hempty
          have hno : ¬ (some "" = some link ∧ link ≠ "") := by
            rintro ⟨h1, h2⟩
            exact h2 (Option.some.inj h1).symm
          rw [if_pos rfl, if_neg hno]
        · simp only [hempty, if_false, mapGet, mapSet, List.lookup_cons]
          by_cases hk : link = url
          · subst hk
            simp [hempty]
          · have hk3 : (link == url) = false := by simpa using hk
            rw [if_neg]
            · simp [hk3]
            · rintro ⟨h1, _⟩
              exact hk (Option.some.inj h1).symm
      | TitleProperty _ => simp [linksStep, pageURL, hprop]
      | MultiSelectProperty _ => simp [linksStep, pageURL, hprop]
      | DateProperty _ => simp [linksStep, pageURL, hprop]
      | SelectProperty _ => simp [linksStep, pageURL, hprop]
      | Other _ => simp [linksStep, pageURL, hprop]

theorem lastMatch_append_singleton (rs : List notionapi.Object) (r : notionapi.Object)
    (link : String) :
    lastMatch (rs ++ [r]) link =
      match r with
      | .Page p => if pageURL p = some link ∧ link ≠ "" then some p else lastMatch rs link
      | .Database _ => lastMatch rs link := by
  cases r with
  | Database id => simp [lastMatch, candidatePages]
  | Page p =>
    simp only [lastMatch, candidatePages, List.filterMap_append, List.filter_append,
      List.getLast?_append]
    by_cases h : pageURL p = some link ∧ link ≠ ""
    · simp [List.filterMap_cons, List.filter_cons, h]
    · simp [List.filterMap_cons, List.filter_cons, h]

theorem buildLinks_get (results : List notionapi.Object) (link : String) :
    mapGet (buildLinks results) link = (lastMatch results link).map (fun p => p.ID) := by
  unfold buildLinks
  induction results using List.reverseRecOn with
  | nil => rfl
  | append_singleton rs r ih =>
    rw [List.foldl_append, List.foldl_cons, List.foldl_nil, linksStep_get,
      lastMatch_append_singleton]
    cases r with
    | Database id => simpa using ih
    | Page p =>
      simp only
      split
      · rfl
      · exact ih

theorem pullWrite_eq_specWrite {σ : Type} (env : Env σ) (feed : Feed)
    (results : List notionapi.Object) (item : gofeed.Item) :
    pullWrite env feed (buildLinks results) item = specWrite env feed results item := by
  unfold pullWrite specWrite
  rw [buildLinks_get]
  cases lastMatch results item.Link <;> rfl

theorem lastMatch_isSome_iff (results : List notionapi.Object) (link : String) :
    (lastMatch results link).isSome = true ↔
      ∃ p ∈ candidatePages results, pageURL p = some link ∧ link ≠ "" := by
  unfold lastMatch
  rw [List.getLast?_isSome]
  constructor
  · intro h
    obtain ⟨p, hp⟩ := List.exists_mem_of_ne_nil _ h
    rw [List.mem_filter] at hp
    exact ⟨p, hp.1, by simpa using hp.2⟩
  · rintro ⟨p, hp, hm⟩
    apply List.ne_nil_of_mem (a := p)
    rw [List.mem_filter]
    exact ⟨hp, by simpa using hm⟩

theorem keptItem_eq_freshItem (expires : Time) (item : gofeed.Item) :
    keptItem expires item = freshItem expires item := by
  unfold keptItem freshItem Before
  cases item.PublishedParsed with
  | none => rfl
  | some t => by_cases h : t < expires <;> simp [h]

theorem tags_foldl (tags : List String) (init : List notionapi.SelectOption) :
    tags.foldl (fun acc v => acc ++ [({ Name := v } : notionapi.SelectOption)]) init =
      init ++ tags.map (fun v => ({ Name := v } : notionapi.SelectOption)) := by
  induction tags generalizing init with
  | nil => simp
  | cons v rest ih => simp [List.foldl_cons, ih]

theorem pullWrite_isWrite {σ : Type} (env : Env σ) (feed : Feed) (links : GoMap String)
    (item : gofeed.Item) : (pullWrite env feed links item).isWrite = true := by
  unfold pullWrite
  split <;> rfl

theorem pullWrite_properties {σ : Type} (env : Env σ) (feed : Feed) (links : GoMap String)
    (item : gofeed.Item) :
    (pullWrite env feed links item).properties = PropertiesFromItem feed item := by
  unfold pullWrite
  split <;> rfl

theorem runPull_fetch_error {σ : Type} (env : Env σ) (now : Time) (feed : Feed) (s : σ)
    (err : String) (hfetch : env.ParseURL feed.URL = .error err) :
    runPull env now feed s = ({ store := s, calls := [], log := [] }, .returned (some err)) := by
  unfold runPull
  simp only [hfetch]

theorem runPull_search_error {σ : Type} (env : Env σ) (now : Time) (feed : Feed) (s : σ)
    (fd : gofeed.Feed) (err : String) (hfetch : env.ParseURL feed.URL = .ok fd)
    (hsearch : env.client.SearchDo s (searchRequest (resolveTitle feed fd).Title) = .error err) :
    runPull env now feed s =
      ({ store := s, calls := [Call.Search (searchRequest (resolveTitle feed fd).Title)],
         log := [] }, .returned (some err)) := by
  unfold runPull
  simp only [hfetch, hsearch]

theorem runClean_fetch_error {σ : Type} (env : Env σ) (now : Time) (feed : Feed)
    (status : List String) (s : σ) (err : String)
    (hfetch : env.ParseURL feed.URL = .error err) :
    runCleanByStatus env now feed status s =
      ({ store := s, calls := [], log := [] }, .returned (some err)) := by
  unfold runCleanByStatus
  simp only [hfetch]

theorem runClean_search_error {σ : Type} (env : Env σ) (now : Time) (feed : Feed)
    (status : List String) (s : σ) (fd : gofeed.Feed) (err : String)
    (hfetch : env.ParseURL feed.URL = .ok fd)
    (hsearch : env.client.SearchDo s (searchRequest (resolveTitle feed fd).Title) = .error err) :
    runCleanByStatus env now feed status s =
      ({ store := s, calls := [Call.Search (searchRequest (resolveTitle feed fd).Title)],
         log := [] }, .returned (some err)) := by
  unfold runCleanByStatus
  simp only [hfetch, hsearch]

theorem PropertiesFromItem_get (feed : Feed) (item : gofeed.Item) :
    mapGet (PropertiesFromItem feed item) "Name" =
        some (.TitleProperty [{ Content := item.Title ++ " | " ++ feed.Title }]) ∧
      mapGet (PropertiesFromItem feed item) "URL" = some (.URLProperty item.Link) ∧
      mapGet (PropertiesFromItem feed item) "Tags" =
        some (.MultiSelectProperty
          ({ Name := feed.Title } :: feed.Tags.map (fun v => { Name := v }))) ∧
      mapGet (PropertiesFromItem feed item) "Publish" =
        item.PublishedParsed.map
          (fun t => .DateProperty (some { Start := some t, End := none })) := by
  unfold PropertiesFromItem
  cases item.PublishedParsed with
  | none =>
    simp only [mapGet, mapSet, tags_foldl, List.singleton_append, Option.map_none']
    refine ⟨?_, ?_, ?_, ?_⟩ <;> rfl
  | some t =>
    simp only [mapGet, mapSet, tags_foldl, List.singleton_append, Option.map_some']
    refine ⟨?_, ?_, ?_, ?_⟩ <;> rfl

/-! ## Lemmas on `runCleanByStatus` -/

theorem statusMap_foldl_get (status : List String) (init : GoMap Unit) (name : String) :
    (mapGet (status.foldl (fun m v => mapSet m v ()) init) name).isSome =
      (decide (name ∈ status) || (mapGet init name).isSome) := by
  induction status generalizing init with
  | nil => simp
  | cons v rest ih =>
    rw [List.foldl_cons, ih]
    by_cases hv : name = v
    · subst hv
      simp [mapGet, mapSet]
    · have hb : (name == v) = false := by simpa using hv
      simp [mapGet, mapSet, List.lookup_cons, hb, hv]

theorem statusMapOf_get (status : List String) (name : String) :
    (mapGet (statusMapOf status) name).isSome = decide (name ∈ status) := by
  unfold statusMapOf
  rw [statusMap_foldl_get]
  simp [mapGet]

theorem cleanLoop_calls {σ : Type} (env : Env σ) (status : List String) (expires : Time)
    (results : List notionapi.Object) (st : Run σ)
    (hdates : ∀ p ∈ candidatePages results,
      targetStatus status p = true → nilPublishDate p = false) :
    (cleanLoop env (statusMapOf status) expires results st).1.calls =
        st.calls ++ ((candidatePages results).filter (staleTarget status expires)).map
          archiveCall ∧
      (cleanLoop env (statusMapOf status) expires results st).2 = .returned none := by
  induction results generalizing st with
  | nil => simp [cleanLoop, candidatePages]
  | cons r rs ih =>
    cases r with
    | Database id =>
      have hrs : ∀ p ∈ candidatePages rs, targetStatus status p = true →
          nilPublishDate p = false := by
        intro p hp
        exact hdates p (by simpa [candidatePages] using hp)
      simpa [cleanLoop, candidatePages] using ih st hrs
    | Page p =>
      have hrs : ∀ p ∈ candidatePages rs, targetStatus status p = true →
          nilPublishDate p = false := by
        intro q hq
        exact hdates q (by simp only [candidatePages, List.filterMap_cons, List.mem_cons]
                           exact Or.inr hq)
      have hp := hdates p (by simp [candidatePages])
      have hcand : candidatePages (.Page p :: rs) = p :: candidatePages rs := by
        simp [candidatePages]
      rw [hcand, List.filter_cons]
      have skip : staleTarget status expires p = false →
          ((cleanLoop env (statusMapOf status) expires rs st).1.calls =
            st.calls ++ (if staleTarget status expires p = true then
                p :: (candidatePages rs).filter (staleTarget status expires)
              else (candidatePages rs).filter (staleTarget status expires)).map archiveCall ∧
            (cleanLoop env (statusMapOf status) expires rs st).2 = .returned none) := by
        intro hst
        simpa [hst] using ih st hrs
      cases hS : mapGet p.Properties "Status" with
      | none =>
        have hps : pageStatus p = none := by simp [pageStatus, hS]
        simp only [cleanLoop, hS]
        exact skip (by simp [staleTarget, targetStatus, hps])
      | some prop =>
        cases prop with
        | SelectProperty sel =>
          have hps : pageStatus p = some sel.Name := by simp [pageStatus, hS]
          have hmem := statusMapOf_get status sel.Name
          cases hM : mapGet (statusMapOf status) sel.Name with
          | none =>
            rw [hM] at hmem
            have hnot : sel.Name ∉ status := by simpa using hmem.symm
            simp only [cleanLoop, hS, hM]
            exact skip (by simp [staleTarget, targetStatus, hps, hnot])
          | some u =>
            rw [hM] at hmem
            have hin : sel.Name ∈ status := by simpa using hmem.symm
            have htarget : targetStatus status p = true := by
              simp [targetStatus, hps, hin]
            have hnil := hp htarget
            cases hP : mapGet p.Properties "Publish" with
            | none =>
              have hstart : publishStart p = none := by simp [publishStart, hP]
              simp only [cleanLoop, hS, hM, hP]
              exact skip (by simp [staleTarget, hstart])
            | some pub =>
              cases pub with
              | DateProperty date =>
                cases date with
                | none => simp [nilPublishDate, hP] at hnil
                | some dateObject =>
                  have hstart : publishStart p = dateObject.Start := by
                    simp [publishStart, hP]
                  cases hD : dateObject.Start with
                  | none =>
                    simp only [cleanLoop, hS, hM, hP, hD]
                    exact skip (by simp [staleTarget, hstart, hD])
                  | some start =>
                    by_cases hb : start < expires
                    · have hst : staleTarget status expires p = true := by
                        simp [staleTarget, htarget, hstart, hD, hb]
                      have hB : Before start expires = true := by simp [Before, hb]
                      simp only [cleanLoop, hS, hM, hP, hD, hB, if_true, hst, List.map_cons]
                      split
                      · rename_i err herr
                        have := ih { (DeletePage env p.ID st).1 with
                          log := (DeletePage env p.ID st).1.log ++ [err] } hrs
                        simpa [DeletePage, archiveCall] using this
                      · have := ih { (DeletePage env p.ID st).1 with
                          log := (DeletePage env p.ID st).1.log ++ ["deleted " ++ p.ID] } hrs
                        simpa [DeletePage, archiveCall] using this
                    · have hB : Before start expires = false := by simp [Before, hb]
                      simp only [cleanLoop, hS, hM, hP, hD, hB]
                      exact skip (by simp [staleTarget, hstart, hD, hb])
              | TitleProperty _ =>
                have hstart : publishStart p = none := by simp [publishStart, hP]
                simp only [cleanLoop, hS, hM, hP]
                exact skip (by simp [staleTarget, hstart])
              | URLProperty _ =>
                have hstart : publishStart p = none := by simp [publishStart, hP]
                simp only [cleanLoop, hS, hM, hP]
                exact skip (by simp [staleTarget, hstart])
              | MultiSelectProperty _ =>
                have hstart : publishStart p = none := by simp [publishStart, hP]
                simp only [cleanLoop, hS, hM, hP]
                exact skip (by simp [staleTarget, hstart])
              | SelectProperty _ =>
                have hstart : publishStart p = none := by simp [publishStart, hP]
                simp only [cleanLoop, hS, hM, hP]
                exact skip (by simp [staleTarget, hstart])
              | Other _ =>
                have hstart : publishStart p = none := by simp [publishStart, hP]
                simp only [cleanLoop, hS, hM, hP]
                exact skip (by simp [staleTarget, hstart])
        | TitleProperty _ =>
          have hps : pageStatus p = none := by simp [pageStatus, hS]
          simp only [cleanLoop, hS]
          exact skip (by simp [staleTarget, targetStatus, hps])
        | URLProperty _ =>
          have hps : pageStatus p = none := by simp [pageStatus, hS]
          simp only [cleanLoop, hS]
          exact skip (by simp [staleTarget, targetStatus, hps])
        | MultiSelectProperty _ =>
          have hps : pageStatus p = none := by simp [pageStatus, hS]
          simp only [cleanLoop, hS]
          exact skip (by simp [staleTarget, targetStatus, hps])
        | DateProperty _ =>
          have hps : pageStatus p = none := by simp [pageStatus, hS]
          simp only [cleanLoop, hS]
          exact skip (by simp [staleTarget, targetStatus, hps])
        | Other _ =>
          have hps : pageStatus p = none := by simp [pageStatus, hS]
          simp only [cleanLoop, hS]
          exact skip (by simp [staleTarget, targetStatus, hps])

/-! ## Lemmas on the record store -/

theorem visibleFrom_mem (pageID : Nat → String) (s : Store) (i : Nat) (x : notionapi.Object) :
    x ∈ visibleFrom pageID i s ↔
      ∃ (j : Nat) (r : StoredPage), s[j]? = some r ∧ r.Archived = false ∧
        x = .Page { ID := pageID (i + j), Properties := r.Properties } := by
  induction s generalizing i with
  | nil => simp [visibleFrom]
  | cons r rs ih =>
    unfold visibleFrom
    constructor
    · intro hx
      by_cases ha : r.Archived = true
      · rw [if_pos ha] at hx
        obtain ⟨j, r', hj, hr', hx'⟩ := (ih (i + 1)).1 hx
        exact ⟨j + 1, r', by simpa using hj, hr', by rw [hx', Nat.add_right_comm i 1 j]; rfl⟩
      · rw [if_neg ha] at hx
        rcases List.mem_cons.1 hx with hx | hx
        · exact ⟨0, r, by simp, by simpa using ha, by simpa using hx⟩
        · obtain ⟨j, r', hj, hr', hx'⟩ := (ih (i + 1)).1 hx
          exact ⟨j + 1, r', by simpa using hj, hr', by rw [hx', Nat.add_right_comm i 1 j]; rfl⟩
    · rintro ⟨j, r', hj, hr', hx⟩
      cases j with
      | zero =>
        have hr : r = r' := by simpa using hj
        subst hr
        rw [if_neg (by simp [hr'])]
        exact List.mem_cons.2 (Or.inl (by simpa using hx))
      | succ j =>
        have hin : x ∈ visibleFrom pageID (i + 1) rs :=
          (ih (i + 1)).2 ⟨j, r', by simpa using hj, hr', by rw [hx, Nat.add_right_comm i 1 j]; rfl⟩
        by_cases ha : r.Archived = true
        · rw [if_pos ha]
          exact hin
        · rw [if_neg ha]
          exact List.mem_cons.2 (Or.inr hin)

theorem updateFrom_getElem? (pageID : Nat → String) (id : String)
    (req : notionapi.PageUpdateRequest) (s : Store) (i j : Nat) :
    (updateFrom pageID id req i s)[j]? =
      (s[j]?).map (fun r => if pageID (i + j) = id then applyUpdate req r else r) := by
  induction s generalizing i j with
  | nil => simp [updateFrom]
  | cons r rs ih =>
    unfold updateFrom
    cases j with
    | zero => simp
    | succ j =>
      simp only [List.getElem?_cons_succ]
      rw [ih (i + 1) j]
      congr 2
      funext r'
      rw [show i + 1 + j = i + (j + 1) by omega]

theorem updateFrom_length (pageID : Nat → String) (id : String)
    (req : notionapi.PageUpdateRequest) (s : Store) (i : Nat) :
    (updateFrom pageID id req i s).length = s.length := by
  induction s generalizing i with
  | nil => rfl
  | cons r rs ih => simp [updateFrom, ih]

theorem Keeps_refl (s : Store) : Keeps s s :=
  fun _ r h => ⟨r, h, rfl, rfl⟩

theorem Keeps_trans {s t u : Store} (h1 : Keeps s t) (h2 : Keeps t u) : Keeps s u := by
  intro j r h
  obtain ⟨r1, hr1, ha1, hu1⟩ := h1 j r h
  obtain ⟨r2, hr2, ha2, hu2⟩ := h2 j r1 hr1
  exact ⟨r2, hr2, ha2.trans ha1, hu2.trans hu1⟩

theorem hasURL_of_Keeps {s t : Store} (h : Keeps s t) (link : String) (hs : hasURL s link) :
    hasURL t link := by
  obtain ⟨j, r, hj, ha, hu⟩ := hs
  obtain ⟨r', hr', ha', hu'⟩ := h j r hj
  exact ⟨j, r', hr', ha'.trans ha, hu'.trans hu⟩

theorem Keeps_append (s : Store) (r : StoredPage) : Keeps s (s ++ [r]) := by
  intro j r0 h
  refine ⟨r0, ?_, rfl, rfl⟩
  have hlt : j < s.length := (List.getElem?_eq_some_iff.1 h).1
  rw [List.getElem?_append_left hlt]
  exact h

theorem hasURL_append (s : Store) (props : GoMap notionapi.Property) (link : String)
    (h : mapGet props "URL" = some (.URLProperty link)) :
    hasURL (s ++ [{ Properties := props, Archived := false }]) link := by
  refine ⟨s.length, { Properties := props, Archived := false }, ?_, rfl, h⟩
  simp

theorem storeUpdate_length (pageID : Nat → String)
    (order : List notionapi.Object → List notionapi.Object)
    (updateFails : Store → String → Bool) (s : Store) (id : String)
    (req : notionapi.PageUpdateRequest) :
    ((storeClient pageID order updateFails).PageUpdate s id req).1.length = s.length := by
  simp only [storeClient]
  split
  · rfl
  · split
    · exact updateFrom_length pageID id req s 0
    · rfl

theorem storeUpdate_Keeps (pageID : Nat → String)
    (order : List notionapi.Object → List notionapi.Object)
    (updateFails : Store → String → Bool) (hinj : Function.Injective pageID)
    (s : Store) (j : Nat) (req : notionapi.PageUpdateRequest) (u : notionapi.Property)
    (harch : req.Archived = false) (hreq : mapGet req.Properties "URL" = some u)
    (hrec : ∀ r : StoredPage, s[j]? = some r →
      r.Archived = false ∧ mapGet r.Properties "URL" = some u) :
    Keeps s ((storeClient pageID order updateFails).PageUpdate s (pageID j) req).1 := by
  simp only [storeClient]
  split
  · exact Keeps_refl s
  · split
    · intro k r hk
      rw [updateFrom_getElem?, hk]
      simp only [Option.map_some', Nat.zero_add]
      by_cases hid : pageID k = pageID j
      · have hkj : k = j := hinj hid
        subst hkj
        obtain ⟨ha, hu⟩ := hrec r hk
        refine ⟨applyUpdate req r, by simp, ?_, ?_⟩
        · simp [applyUpdate, harch, ha]
        · simp only [applyUpdate, mapGet] at *
          rw [List.lookup_append, hreq, hu]
          rfl
      · exact ⟨r, by simp [hid], rfl, rfl⟩
    · exact Keeps_refl s

theorem pullItem_store {σ : Type} (env : Env σ) (feed : Feed) (links : GoMap String)
    (expires : Time) (st : Run σ) (item : gofeed.Item) :
    (pullItem env feed links expires st item).store =
      if keptItem expires item then
        match mapGet links item.Link with
        | some id =>
          (env.client.PageUpdate st.store id
            { Properties := PropertiesFromItem feed item, Archived := false }).1
        | none =>
          (env.client.PageCreate st.store
            { Parent := { ParentType := notionapi.ParentTypeDatabaseID, DatabaseID := env.notionDatabaseID },
              Properties := PropertiesFromItem feed item }).1
      else st.store := by
  unfold pullItem keptItem
  cases hp : item.PublishedParsed with
  | none => simp
  | some t =>
    simp only
    by_cases hb : Before t expires = true
    · simp [hb]
    · have hb2 : Before t expires = false := by simpa using hb
      simp only [hb2, Bool.false_eq_true, if_false, Bool.not_false, if_true]
      cases hl : mapGet links item.Link with
      | none =>
        simp only [CreatePage]
        split <;> rfl
      | some id =>
        simp only [UpdatePage]
        split <;> rfl

theorem pullItem_storeEnv (parse : String → Except String gofeed.Feed) (pageID : Nat → String)
    (order : List notionapi.Object → List notionapi.Object)
    (updateFails : Store → String → Bool) (databaseID : String)
    (hinj : Function.Injective pageID) (feed : Feed) (links : GoMap String) (expires : Time)
    (s0 : Store) (hlinked : Linked pageID s0 links) (st : Run Store)
    (hkeeps : Keeps s0 st.store) (item : gofeed.Item) :
    Keeps st.store
        (pullItem (storeEnv parse pageID order updateFails databaseID) feed links expires st
          item).store ∧
      (keptItem expires item = true → mapGet links item.Link = none →
        hasURL
          (pullItem (storeEnv parse pageID order updateFails databaseID) feed links expires st
            item).store item.Link) := by
  rw [pullItem_store]
  have hurl := (PropertiesFromItem_get feed item).2.1
  by_cases hk : keptItem expires item = true
  · simp only [hk, if_true]
    cases hl : mapGet links item.Link with
    | none =>
      simp only [storeEnv, storeClient]
      exact ⟨Keeps_append _ _, fun _ _ => hasURL_append _ _ _ hurl⟩
    | some id =>
      obtain ⟨j, r0, hj, ha0, hid, hu0⟩ := hlinked item.Link id hl
      subst hid
      simp only [storeEnv]
      refine ⟨?_, fun _ h => by simp at h⟩
      apply storeUpdate_Keeps pageID order updateFails hinj st.store j _
        (.URLProperty item.Link) rfl hurl
      intro r hr
      obtain ⟨r', hr', ha', hu'⟩ := hkeeps j r0 hj
      have : r' = r := Option.some.inj (hr'.symm.trans hr)
      subst this
      exact ⟨ha'.trans ha0, hu'.trans hu0⟩
  · have hk2 : keptItem expires item = false := by simpa using hk
    simp only [hk2, Bool.false_eq_true, if_false]
    exact ⟨Keeps_refl _, fun h => by simp at h⟩

theorem pullLoop_storeEnv (parse : String → Except String gofeed.Feed) (pageID : Nat → String)
    (order : List notionapi.Object → List notionapi.Object)
    (updateFails : Store → String → Bool) (databaseID : String)
    (hinj : Function.Injective pageID) (feed : Feed) (links : GoMap String) (expires : Time)
    (s0 : Store) (hlinked : Linked pageID s0 links) (items : List gofeed.Item)
    (st : Run Store) (hkeeps : Keeps s0 st.store) :
    Keeps st.store
        (items.foldl
          (pullItem (storeEnv parse pageID order updateFails databaseID) feed links expires)
          st).store ∧
      ∀ item ∈ items, keptItem expires item = true → mapGet links item.Link = none →
        hasURL
          (items.foldl
            (pullItem (storeEnv parse pageID order updateFails databaseID) feed links expires)
            st).store item.Link := by
  induction items generalizing st with
  | nil => exact ⟨Keeps_refl _, fun _ h => by simp at h⟩
  | cons item rest ih =>
    obtain ⟨hstep, hnew⟩ := pullItem_storeEnv parse pageID order updateFails databaseID hinj
      feed links expires s0 hlinked st hkeeps item
    obtain ⟨hrest, hrestNew⟩ := ih _ (Keeps_trans hkeeps hstep)
    rw [List.foldl_cons]
    refine ⟨Keeps_trans hstep hrest, ?_⟩
    intro it hit hk hl
    rcases List.mem_cons.1 hit with h | h
    · subst h
      exact hasURL_of_Keeps hrest _ (hnew hk hl)
    · exact hrestNew it h hk hl

theorem pullLoop_length (parse : String → Except String gofeed.Feed) (pageID : Nat → String)
    (order : List notionapi.Object → List notionapi.Object)
    (updateFails : Store → String → Bool) (databaseID : String)
    (feed : Feed) (links : GoMap String) (expires : Time) (items : List gofeed.Item)
    (hall : ∀ item ∈ items, keptItem expires item = true →
      (mapGet links item.Link).isSome = true)
    (st : Run Store) :
    (items.foldl
      (pullItem (storeEnv parse pageID order updateFails databaseID) feed links expires)
      st).store.length = st.store.length := by
  induction items generalizing st with
  | nil => rfl
  | cons item rest ih =>
    rw [List.foldl_cons, ih (fun it hit => hall it (List.mem_cons_of_mem _ hit)),
      pullItem_store]
    by_cases hk : keptItem expires item = true
    · simp only [hk, if_true]
      have hsome := hall item (List.mem_cons_self _ _) hk
      obtain ⟨id, hid⟩ := Option.isSome_iff_exists.1 hsome
      simp only [hid, storeEnv]
      exact storeUpdate_length pageID order updateFails st.store id _
    · have hk2 : keptItem expires item = false := by simpa using hk
      simp [hk2]

theorem buildLinks_Linked (pageID : Nat → String)
    (order : List notionapi.Object → List notionapi.Object)
    (horder : ∀ l x, x ∈ order l ↔ x ∈ l) (s : Store) :
    Linked pageID s (buildLinks (order (visibleFrom pageID 0 s))) := by
  intro link id hget
  rw [buildLinks_get] at hget
  cases hl : lastMatch (order (visibleFrom pageID 0 s)) link with
  | none => simp [hl] at hget
  | some p =>
    rw [hl] at hget
    have hid : p.ID = id := by simpa using hget
    have hmem := List.mem_of_getLast?_eq_some hl
    rw [List.mem_filter] at hmem
    obtain ⟨hcand, hmatch⟩ := hmem
    have hurl : pageURL p = some link := (of_decide_eq_true hmatch).1
    have hobj : notionapi.Object.Page p ∈ order (visibleFrom pageID 0 s) := by
      unfold candidatePages at hcand
      obtain ⟨x, hx, hxp⟩ := List.mem_filterMap.1 hcand
      cases x with
      | Database _ => simp at hxp
      | Page q =>
        have : q = p := by simpa using hxp
        subst this
        exact hx
    obtain ⟨j, r, hj, ha, hp⟩ := (visibleFrom_mem pageID s 0 _).1 ((horder _ _).1 hobj)
    have hp2 : p = { ID := pageID (0 + j), Properties := r.Properties } := by
      simpa using hp
    refine ⟨j, r, hj, ha, ?_, ?_⟩
    · rw [← hid, hp2, Nat.zero_add]
    · rw [hp2] at hurl
      unfold pageURL at hurl
      simp only at hurl
      cases hprop : mapGet r.Properties "URL" with
      | none => simp [hprop] at hurl
      | some prop =>
        cases prop with
        | URLProperty url =>
          have : url = link := by simpa [hprop] using hurl
          rw [this]
        | TitleProperty _ => simp [hprop] at hurl
        | MultiSelectProperty _ => simp [hprop] at hurl
        | DateProperty _ => simp [hprop] at hurl
        | SelectProperty _ => simp [hprop] at hurl
        | Other _ => simp [hprop] at hurl

theorem buildLinks_isSome_of_hasURL (pageID : Nat → String)
    (order : List notionapi.Object → List notionapi.Object)
    (horder : ∀ l x, x ∈ order l ↔ x ∈ l) (s : Store) (link : String)
    (hne : link ≠ "") (h : hasURL s link) :
    (mapGet (buildLinks (order (visibleFrom pageID 0 s))) link).isSome = true := by
  obtain ⟨j, r, hj, ha, hu⟩ := h
  rw [buildLinks_get, Option.isSome_map']
  apply (lastMatch_isSome_iff _ link).2
  refine ⟨{ ID := pageID (0 + j), Properties := r.Properties }, ?_, ?_, hne⟩
  · unfold candidatePages
    apply List.mem_filterMap.2
    refine ⟨.Page { ID := pageID (0 + j), Properties := r.Properties }, ?_, rfl⟩
    exact (horder _ _).2 ((visibleFrom_mem pageID s 0 _).2 ⟨j, r, hj, ha, rfl⟩)
  · simp [pageURL, hu]

theorem runPull_storeEnv (parse : String → Except String gofeed.Feed) (pageID : Nat → String)
    (order : List notionapi.Object → List notionapi.Object)
    (updateFails : Store → String → Bool) (databaseID : String) (now : Time) (feed : Feed)
    (s : Store) (fd : gofeed.Feed) (hfetch : parse feed.URL = .ok fd) :
    (runPull (storeEnv parse pageID order updateFails databaseID) now feed s).1 =
      fd.Items.foldl
        (pullItem (storeEnv parse pageID order updateFails databaseID) (resolveTitle feed fd)
          (buildLinks (order (visibleFrom pageID 0 s))) (expiresAt now feed.Expires))
        { store := s, calls := [Call.Search (searchRequest (resolveTitle feed fd).Title)],
          log := [] } := by
  unfold runPull
  simp only [storeEnv, storeClient, hfetch, resolveTitle_Expires]

theorem pageIDOf_injective : Function.Injective pageIDOf := by
  intro a b h
  have hlen : (List.replicate (a + 1) 'p').length = (List.replicate (b + 1) 'p').length :=
    congrArg (fun x : String => x.data.length) h
  simpa using hlen

/-! ## Claims -/

/-- C1: in `runPull`, after a successful fetch and search, the calls are the
search followed by exactly one write per item that passes the freshness
filter, in order; that write is an update of the last candidate page, in
search-result order, whose URL property equals the item's link (a non-empty
URL) when there is such a candidate, and a create when there is none. -/
theorem runPull_updates_last_match_else_creates {σ : Type} (env : Env σ) (now : Time)
    (feed : Feed) (s : σ) (fd : gofeed.Feed) (results : List notionapi.Object)
    (hfetch : env.ParseURL feed.URL = .ok fd)
    (hsearch : env.client.SearchDo s (searchRequest (resolveTitle feed fd).Title) = .ok results) :
    (runPull env now feed s).1.calls =
        Call.Search (searchRequest (resolveTitle feed fd).Title) ::
          (fd.Items.filter (keptItem (expiresAt now feed.Expires))).map
            (specWrite env (resolveTitle feed fd) results) ∧
      ∀ item : gofeed.Item,
        ((∃ p ∈ candidatePages results, pageURL p = some item.Link ∧ item.Link ≠ "") →
          ∃ p, lastMatch results item.Link = some p ∧
            specWrite env (resolveTitle feed fd) results item =
              Call.Update p.ID
                { Properties := PropertiesFromItem (resolveTitle feed fd) item,
                  Archived := false }) ∧
        ((¬ ∃ p ∈ candidatePages results, pageURL p = some item.Link ∧ item.Link ≠ "") →
          specWrite env (resolveTitle feed fd) results item =
            Call.Create
              { Parent := { ParentType := notionapi.ParentTypeDatabaseID, DatabaseID := env.notionDatabaseID },
                Properties := PropertiesFromItem (resolveTitle feed fd) item }) := by
  refine ⟨?_, ?_⟩
  · rw [(runPull_calls env now feed s fd results hfetch hsearch).1]
    congr 1
    apply List.map_congr_left
    intro item _
    exact pullWrite_eq_specWrite env _ results item
  · intro item
    constructor
    · intro h
      have hsome := (lastMatch_isSome_iff results item.Link).2 h
      obtain ⟨p, hp⟩ := Option.isSome_iff_exists.1 hsome
      exact ⟨p, hp, by simp [specWrite, hp]⟩
    · intro h
      have hnone : lastMatch results item.Link = none := by
        cases hl : lastMatch results item.Link with
        | none => rfl
        | some p =>
          exact absurd ((lastMatch_isSome_iff results item.Link).1 (by simp [hl])) h
      simp [specWrite, hnone]

/-- Witness of C1: the first item is updated on page "p2", the later of the
two pages carrying its URL; the second item is created. -/
theorem runPull_updates_last_match_else_creates_witness :
    sampleEnv.ParseURL sampleFeed.URL = .ok sampleParsed ∧
      (runPull sampleEnv sampleNow sampleFeed ()).1.calls =
        Call.Search (searchRequest (resolveTitle sampleFeed sampleParsed).Title) ::
          (sampleParsed.Items.filter (keptItem (expiresAt sampleNow sampleFeed.Expires))).map
            (specWrite sampleEnv (resolveTitle sampleFeed sampleParsed) sampleResults) :=
  ⟨rfl, (runPull_updates_last_match_else_creates sampleEnv sampleNow sampleFeed ()
    sampleParsed sampleResults rfl rfl).1⟩

/-- C2: the field set built by `PropertiesFromItem` has Name
"<item title> | <feed title>", URL the item's link, Tags the feed title
followed by the configured tags in their order (so 1 + the number of
configured tags), and a Publish date exactly when the item has a published
timestamp, its start being that timestamp; it has no other field; and
every create and update of `runPull` carries the field set of a fetched
item, built for the feed under its resolved title. -/
theorem PropertiesFromItem_field_set (feed : Feed) (item : gofeed.Item) :
    mapGet (PropertiesFromItem feed item) "Name" =
        some (.TitleProperty [{ Content := item.Title ++ " | " ++ feed.Title }]) ∧
      mapGet (PropertiesFromItem feed item) "URL" = some (.URLProperty item.Link) ∧
      mapGet (PropertiesFromItem feed item) "Tags" =
        some (.MultiSelectProperty
          ({ Name := feed.Title } :: feed.Tags.map (fun v => { Name := v }))) ∧
      ((({ Name := feed.Title } : notionapi.SelectOption) ::
        feed.Tags.map (fun v => { Name := v })).length = 1 + feed.Tags.length) ∧
      mapGet (PropertiesFromItem feed item) "Publish" =
        item.PublishedParsed.map
          (fun t => .DateProperty (some { Start := some t, End := none })) ∧
      (∀ k : String, k ≠ "Name" → k ≠ "URL" → k ≠ "Tags" → k ≠ "Publish" →
        mapGet (PropertiesFromItem feed item) k = none) ∧
      (∀ (σ : Type) (env : Env σ) (now : Time) (s : σ) (c : Call),
        c ∈ (runPull env now feed s).1.calls → c.isWrite = true →
          ∃ fd it, env.ParseURL feed.URL = .ok fd ∧ it ∈ fd.Items ∧
            c.properties = PropertiesFromItem (resolveTitle feed fd) it) := by
  obtain ⟨h1, h2, h3, h4⟩ := PropertiesFromItem_get feed item
  refine ⟨h1, h2, h3, ?_, h4, ?_, ?_⟩
  · simp [Nat.add_comm]
  · intro k k1 k2 k3 k4
    have e1 : (k == "Name") = false := by simpa using k1
    have e2 : (k == "URL") = false := by simpa using k2
    have e3 : (k == "Tags") = false := by simpa using k3
    have e4 : (k == "Publish") = false := by simpa using k4
    unfold PropertiesFromItem
    cases item.PublishedParsed <;>
      simp [mapGet, mapSet, List.lookup_cons, e1, e2, e3, e4]
  · intro σ env now s c hc hw
    cases hfetch : env.ParseURL feed.URL with
    | error err =>
      rw [runPull_fetch_error env now feed s err hfetch] at hc
      simp at hc
    | ok fd =>
      cases hsearch : env.client.SearchDo s (searchRequest (resolveTitle feed fd).Title) with
      | error err =>
        rw [runPull_search_error env now feed s fd err hfetch hsearch] at hc
        simp only [List.mem_singleton] at hc
        subst hc
        simp [Call.isWrite] at hw
      | ok results =>
        rw [(runPull_calls env now feed s fd results hfetch hsearch).1] at hc
        rcases List.mem_cons.1 hc with hc | hc
        · subst hc
          simp [Call.isWrite] at hw
        · obtain ⟨it, hit, rfl⟩ := List.mem_map.1 hc
          exact ⟨fd, it, rfl, (List.mem_filter.1 hit).1, pullWrite_properties _ _ _ _⟩

/-- C3, as stated, fails: with a window of 3600 seconds an item published
exactly at now − 3600 s is not excluded, `runPull` issues a create for it. -/
theorem runPull_boundary_item_counterexample :
    boundaryItem.PublishedParsed = some (sampleNow - sampleFeed.Expires * 1000000000) ∧
      (runPull boundaryEnv sampleNow sampleFeed ()).1.calls =
        [ Call.Search (searchRequest "X"),
          Call.Create
            { Parent := { ParentType := notionapi.ParentTypeDatabaseID, DatabaseID := "db" },
              Properties := PropertiesFromItem { sampleFeed with Title := "X" } boundaryItem } ] := by
  constructor
  · decide
  · decide

/-- C3, amended: for every current time and every expiry window that fits a
`time.Duration`, an item whose published timestamp is exactly the cutoff
now − expiryWindow is included: `runPull` issues exactly one write for it,
at its place among the writes for the items before and after it. -/
theorem runPull_keeps_item_at_cutoff {σ : Type} (env : Env σ) (now : Time) (feed : Feed)
    (s : σ) (fd : gofeed.Feed) (results : List notionapi.Object)
    (before after : List gofeed.Item) (item : gofeed.Item)
    (hfetch : env.ParseURL feed.URL = .ok fd)
    (hsearch : env.client.SearchDo s (searchRequest (resolveTitle feed fd).Title) = .ok results)
    (hfits : DurationFits feed.Expires)
    (hitems : fd.Items = before ++ item :: after)
    (hpub : item.PublishedParsed = some (now - feed.Expires * 1000000000)) :
    (runPull env now feed s).1.calls =
        Call.Search (searchRequest (resolveTitle feed fd).Title) ::
          ((before.filter (keptItem (expiresAt now feed.Expires))).map
              (pullWrite env (resolveTitle feed fd) (buildLinks results)) ++
            pullWrite env (resolveTitle feed fd) (buildLinks results) item ::
              (after.filter (keptItem (expiresAt now feed.Expires))).map
                (pullWrite env (resolveTitle feed fd) (buildLinks results))) ∧
      (pullWrite env (resolveTitle feed fd) (buildLinks results) item).isWrite = true := by
  refine ⟨?_, pullWrite_isWrite _ _ _ _⟩
  rw [(runPull_calls env now feed s fd results hfetch hsearch).1, hitems]
  have hkept : keptItem (expiresAt now feed.Expires) item = true := by
    rw [keptItem_eq_freshItem, expiresAt_of_fits now feed.Expires hfits]
    simp [freshItem, hpub]
  simp [List.filter_cons, hkept]

/-- Witness of the amended C3 on the boundary item. -/
theorem runPull_keeps_item_at_cutoff_witness :
    DurationFits sampleFeed.Expires ∧
      boundaryItem.PublishedParsed = some (sampleNow - sampleFeed.Expires * 1000000000) ∧
      (pullWrite boundaryEnv (resolveTitle sampleFeed { Title := "X", Items := [boundaryItem] })
        (buildLinks []) boundaryItem).isWrite = true :=
  ⟨by decide, by decide,
    (runPull_keeps_item_at_cutoff boundaryEnv sampleNow sampleFeed ()
      { Title := "X", Items := [boundaryItem] } [] [] [] boundaryItem rfl rfl
      (by decide) rfl (by decide)).2⟩

/-- C4, as stated, fails: with a window of 9223372037 seconds the product
with `time.Second` wraps, the cutoff lands in the future, and an item
published now, which is not before now − 9223372037 s, gets no write. -/
theorem runPull_window_overflow_counterexample :
    freshItem (sampleNow - overflowFeed.Expires * 1000000000) currentItem = true ∧
      (runPull overflowEnv sampleNow overflowFeed ()).1.calls =
        [Call.Search (searchRequest "X")] := by
  constructor
  · decide
  · decide

/-- C4, amended: for an expiry window that fits a `time.Duration`, after a
successful fetch and search the writes of `runPull` are, one for one and in
fetch order, the fetched items that have a published timestamp not strictly
before now − expiryWindow; an item without a timestamp or with one strictly
before that cutoff produces no write. -/
theorem runPull_writes_fresh_items {σ : Type} (env : Env σ) (now : Time) (feed : Feed)
    (s : σ) (fd : gofeed.Feed) (results : List notionapi.Object)
    (hfetch : env.ParseURL feed.URL = .ok fd)
    (hsearch : env.client.SearchDo s (searchRequest (resolveTitle feed fd).Title) = .ok results)
    (hfits : DurationFits feed.Expires) :
    (runPull env now feed s).1.calls =
        Call.Search (searchRequest (resolveTitle feed fd).Title) ::
          (fd.Items.filter (freshItem (now - feed.Expires * 1000000000))).map
            (pullWrite env (resolveTitle feed fd) (buildLinks results)) ∧
      ((runPull env now feed s).1.calls.filter Call.isWrite).length =
        (fd.Items.filter (freshItem (now - feed.Expires * 1000000000))).length := by
  have hcalls : (runPull env now feed s).1.calls =
      Call.Search (searchRequest (resolveTitle feed fd).Title) ::
        (fd.Items.filter (freshItem (now - feed.Expires * 1000000000))).map
          (pullWrite env (resolveTitle feed fd) (buildLinks results)) := by
    rw [(runPull_calls env now feed s fd results hfetch hsearch).1]
    congr 2
    apply List.filter_congr
    intro item _
    rw [keptItem_eq_freshItem, expiresAt_of_fits now feed.Expires hfits]
  refine ⟨hcalls, ?_⟩
  rw [hcalls, List.filter_cons]
  simp only [Call.isWrite, Bool.false_eq_true, if_false]
  rw [List.filter_eq_self.2, List.length_map]
  intro c hc
  obtain ⟨it, _, rfl⟩ := List.mem_map.1 hc
  exact pullWrite_isWrite _ _ _ _

/-- Witness of the amended C4 on the sample feed. -/
theorem runPull_writes_fresh_items_witness :
    DurationFits sampleFeed.Expires ∧
      ((runPull sampleEnv sampleNow sampleFeed ()).1.calls.filter Call.isWrite).length =
        (sampleParsed.Items.filter
          (freshItem (sampleNow - sampleFeed.Expires * 1000000000))).length :=
  ⟨by decide,
    (runPull_writes_fresh_items sampleEnv sampleNow sampleFeed () sampleParsed sampleResults
      rfl rfl (by decide)).2⟩

/-- C7: after a successful fetch and search, whatever the outcome of each
create and update call, the calls of `runPull` (which item, create or
update, which page ID, which field set) are those it makes against a client
with the same search results whose writes all succeed, and `runPull`
returns no error. -/
theorem runPull_calls_independent_of_write_failures {σ : Type} (env : Env σ) (now : Time)
    (feed : Feed) (s : σ) (fd : gofeed.Feed) (results : List notionapi.Object)
    (hfetch : env.ParseURL feed.URL = .ok fd)
    (hsearch : env.client.SearchDo s (searchRequest (resolveTitle feed fd).Title) = .ok results) :
    (runPull env now feed s).1.calls =
        (runPull
          { ParseURL := env.ParseURL, client := succeedingClient results,
            notionDatabaseID := env.notionDatabaseID } now feed ()).1.calls ∧
      (runPull env now feed s).2 = .returned none := by
  have h1 := runPull_calls env now feed s fd results hfetch hsearch
  have h2 := runPull_calls
    { ParseURL := env.ParseURL, client := succeedingClient results,
      notionDatabaseID := env.notionDatabaseID } now feed () fd results hfetch rfl
  refine ⟨?_, h1.2⟩
  rw [h1.1, h2.1]
  rfl

/-- Witness of C7: the calls made when every write fails are the calls made
when every write succeeds. -/
theorem runPull_calls_independent_of_write_failures_witness :
    sampleFailingEnv.ParseURL sampleFeed.URL = .ok sampleParsed ∧
      (runPull sampleFailingEnv sampleNow sampleFeed ()).1.calls =
        (runPull sampleEnv sampleNow sampleFeed ()).1.calls ∧
      (runPull sampleFailingEnv sampleNow sampleFeed ()).2 = .returned none :=
  ⟨rfl,
    runPull_calls_independent_of_write_failures sampleFailingEnv sampleNow sampleFeed ()
      sampleParsed sampleResults rfl rfl⟩

/-- C8: if the fetch fails, or the fetch succeeds and the search fails, then
`runPull` and `runCleanByStatus` return that error, make no create, update
or archive call, and leave the store as it was. -/
theorem passes_abort_without_writes {σ : Type} (env : Env σ) (now : Time) (feed : Feed)
    (status : List String) (s : σ) (err : String)
    (h : env.ParseURL feed.URL = .error err ∨
      ∃ fd, env.ParseURL feed.URL = .ok fd ∧
        env.client.SearchDo s (searchRequest (resolveTitle feed fd).Title) = .error err) :
    ((runPull env now feed s).2 = .returned (some err) ∧
        (∀ c ∈ (runPull env now feed s).1.calls, c.isWrite = false) ∧
        (runPull env now feed s).1.store = s) ∧
      ((runCleanByStatus env now feed status s).2 = .returned (some err) ∧
        (∀ c ∈ (runCleanByStatus env now feed status s).1.calls, c.isWrite = false) ∧
        (runCleanByStatus env now feed status s).1.store = s) := by
  rcases h with hfetch | ⟨fd, hfetch, hsearch⟩
  · rw [runPull_fetch_error env now feed s err hfetch,
      runClean_fetch_error env now feed status s err hfetch]
    simp
  · rw [runPull_search_error env now feed s fd err hfetch hsearch,
      runClean_search_error env now feed status s fd err hfetch hsearch]
    simp [Call.isWrite]

/-- Witness of C8, on a failing fetch and on a failing search. -/
theorem passes_abort_without_writes_witness :
    (fetchErrorEnv.ParseURL sampleFeed.URL = .error "fetch failed" ∧
        (runPull fetchErrorEnv sampleNow sampleFeed ()).2 = .returned (some "fetch failed")) ∧
      (searchErrorEnv.client.SearchDo ()
          (searchRequest (resolveTitle sampleFeed sampleParsed).Title) = .error "search failed" ∧
        (runCleanByStatus searchErrorEnv sampleNow sampleFeed ["Done"] ()).2 =
          .returned (some "search failed")) :=
  ⟨⟨rfl, (passes_abort_without_writes fetchErrorEnv sampleNow sampleFeed ["Done"] ()
      "fetch failed" (Or.inl rfl)).1.1⟩,
    ⟨rfl, (passes_abort_without_writes searchErrorEnv sampleNow sampleFeed ["Done"] ()
      "search failed" (Or.inr ⟨sampleParsed, rfl, rfl⟩)).2.1⟩⟩

/-- C10: after a successful fetch and search, when the configured title is
empty the search query, the Name suffix and the first tag of every write of
`runPull` are the fetched feed's title; when it is not empty they are the
configured title, whatever the fetched feed's title; and the configuration
`main` holds after its passes is the one it held before them. -/
theorem runPull_title_resolution {σ : Type} (env : Env σ) (now : Time) (feed : Feed)
    (s : σ) (fd : gofeed.Feed) (results : List notionapi.Object)
    (hfetch : env.ParseURL feed.URL = .ok fd)
    (hsearch : env.client.SearchDo s (searchRequest (resolveTitle feed fd).Title) = .ok results) :
    (feed.Title = "" →
        (runPull env now feed s).1.calls =
          Call.Search (searchRequest fd.Title) ::
            (fd.Items.filter (keptItem (expiresAt now feed.Expires))).map
              (pullWrite env { feed with Title := fd.Title } (buildLinks results))) ∧
      (feed.Title ≠ "" →
        (runPull env now feed s).1.calls =
          Call.Search (searchRequest feed.Title) ::
            (fd.Items.filter (keptItem (expiresAt now feed.Expires))).map
              (pullWrite env feed (buildLinks results))) ∧
      (∀ (f : Feed) (links : GoMap String) (item : gofeed.Item),
        (searchRequest f.Title).Query = f.Title ∧
          mapGet (pullWrite env f links item).properties "Name" =
            some (.TitleProperty [{ Content := item.Title ++ " | " ++ f.Title }]) ∧
          mapGet (pullWrite env f links item).properties "Tags" =
            some (.MultiSelectProperty
              ({ Name := f.Title } :: f.Tags.map (fun v => { Name := v })))) ∧
      (∀ (clock : Nat → Time) (arg0 : String) (c : Config) (s0 : σ),
        (main env clock arg0 c s0).1 = applyDefaults c) := by
  have hcalls := (runPull_calls env now feed s fd results hfetch hsearch).1
  refine ⟨?_, ?_, ?_, ?_⟩
  · intro ht
    rw [hcalls]
    simp [resolveTitle, ht]
  · intro ht
    rw [hcalls]
    simp [resolveTitle, ht]
  · intro f links item
    obtain ⟨h1, _, h3, _⟩ := PropertiesFromItem_get f item
    rw [pullWrite_properties]
    exact ⟨rfl, h1, h3⟩
  · intro clock arg0 c s0
    unfold main
    simp only
    split
    · rfl
    · split <;> rfl

/-- Witness of C10: the sample feed has no configured title, so the query is
the fetched title "X". -/
theorem runPull_title_resolution_witness :
    sampleEnv.ParseURL sampleFeed.URL = .ok sampleParsed ∧
      (runPull sampleEnv sampleNow sampleFeed ()).1.calls =
        Call.Search (searchRequest sampleParsed.Title) ::
          (sampleParsed.Items.filter (keptItem (expiresAt sampleNow sampleFeed.Expires))).map
            (pullWrite sampleEnv { sampleFeed with Title := sampleParsed.Title }
              (buildLinks sampleResults)) :=
  ⟨rfl, (runPull_title_resolution sampleEnv sampleNow sampleFeed () sampleParsed sampleResults
    rfl rfl).1 rfl⟩

/-! ## The default expiry loop -/

theorem defaultsLoop_spec (c : Config) (n : Nat) :
    ((List.range n).foldl defaultExpiresAt c).Expires = c.Expires ∧
      ((List.range n).foldl defaultExpiresAt c).CleanStatus = c.CleanStatus ∧
      ∀ i : Nat, ((List.range n).foldl defaultExpiresAt c).Feeds[i]? =
        if i < n then
          (c.Feeds[i]?).map (fun v =>
            { URL := v.URL, Title := v.Title, Tags := v.Tags,
              Expires := if v.Expires = 0 then c.Expires else v.Expires })
        else c.Feeds[i]? := by
  induction n with
  | zero => simp
  | succ n ih =>
    obtain ⟨ihE, ihS, ihF⟩ := ih
    rw [List.range_succ, List.foldl_append, List.foldl_cons, List.foldl_nil]
    generalize (List.range n).foldl defaultExpiresAt c = c1 at ihE ihS ihF
    have hn : c1.Feeds[n]? = c.Feeds[n]? := by simpa using ihF n
    unfold defaultExpiresAt
    cases hv : c.Feeds[n]? with
    | none =>
      rw [hn, hv]
      refine ⟨ihE, ihS, ?_⟩
      intro i
      rw [ihF i]
      by_cases hi : i < n
      · simp [hi, Nat.lt_succ_of_lt hi]
      · by_cases hin : i = n
        · subst hin
          simp [hv]
        · have : ¬ i < n + 1 := by omega
          simp [hi, this]
    | some v =>
      rw [hn, hv]
      simp only
      by_cases hz : v.Expires = 0
      · simp only [hz, if_true]
        refine ⟨ihE, ihS, ?_⟩
        intro i
        by_cases hin : i = n
        · subst hin
          have hlen : i < c1.Feeds.length := by
            have hsome : c1.Feeds[i]? = some v := by rw [hn, hv]
            exact (List.getElem?_eq_some_iff.1 hsome).1
          rw [List.getElem?_set_self hlen]
          simp [hv, hz, ihE]
        · rw [List.getElem?_set_ne (fun h => hin h.symm), ihF i]
          by_cases hi : i < n
          · simp [hi, Nat.lt_succ_of_lt hi]
          · have : ¬ i < n + 1 := by omega
            simp [hi, this]
      · simp only [hz, if_false]
        refine ⟨ihE, ihS, ?_⟩
        intro i
        rw [ihF i]
        by_cases hi : i < n
        · simp [hi, Nat.lt_succ_of_lt hi]
        · by_cases hin : i = n
          · subst hin
            simp [hv, hz]
          · have : ¬ i < n + 1 := by omega
            simp [hi, this]

/-- C9: the default-substitution loop of `main` leaves the list of feeds
with the same length and order and the same url, title and tags at every
index, and the resolved Expires at index k is the feed's own value when that
is non-zero and the global default when it is zero; the global settings are
untouched, and the pull and clean passes of `main` run on that resolved
list. -/
theorem applyDefaults_resolves_expires (c : Config) :
    (applyDefaults c).Feeds =
        c.Feeds.map (fun v =>
          { URL := v.URL, Title := v.Title, Tags := v.Tags,
            Expires := if v.Expires = 0 then c.Expires else v.Expires }) ∧
      (applyDefaults c).Feeds.length = c.Feeds.length ∧
      (∀ k : Nat, (applyDefaults c).Feeds[k]? =
        (c.Feeds[k]?).map (fun v =>
          { URL := v.URL, Title := v.Title, Tags := v.Tags,
            Expires := if v.Expires = 0 then c.Expires else v.Expires })) ∧
      (applyDefaults c).Expires = c.Expires ∧
      (applyDefaults c).CleanStatus = c.CleanStatus ∧
      (∀ (σ : Type) (env : Env σ) (clock : Nat → Time) (s : σ),
        main env clock "pull" c s =
            (applyDefaults c,
              forFeeds (runPull env) clock 0 (applyDefaults c).Feeds
                { store := s, calls := [], log := [] }) ∧
          main env clock "clean" c s =
            (applyDefaults c,
              forFeeds (fun now f => runCleanByStatus env now f c.CleanStatus) clock 0
                (applyDefaults c).Feeds { store := s, calls := [], log := [] })) := by
  obtain ⟨hE, hS, hF⟩ := defaultsLoop_spec c c.Feeds.length
  have hk : ∀ k : Nat, (applyDefaults c).Feeds[k]? =
      (c.Feeds[k]?).map (fun v =>
        { URL := v.URL, Title := v.Title, Tags := v.Tags,
          Expires := if v.Expires = 0 then c.Expires else v.Expires }) := by
    intro k
    unfold applyDefaults
    rw [hF k]
    by_cases h : k < c.Feeds.length
    · simp [h]
    · simp [h, List.getElem?_eq_none (Nat.le_of_not_lt h)]
  have hlist : (applyDefaults c).Feeds =
      c.Feeds.map (fun v =>
        { URL := v.URL, Title := v.Title, Tags := v.Tags,
          Expires := if v.Expires = 0 then c.Expires else v.Expires }) := by
    apply List.ext_getElem?
    intro k
    rw [hk k, List.getElem?_map]
  refine ⟨hlist, ?_, hk, hE, hS, ?_⟩
  · rw [hlist, List.length_map]
  · intro σ env clock s
    have hS2 : (applyDefaults c).CleanStatus = c.CleanStatus := hS
    constructor
    · simp [main]
    · simp [main, hS2]

/-- C5, as stated, fails: with a window of 9223372037 seconds the cutoff
wraps into the future and a "Done" page whose Publish date is `sampleNow`,
which is not before now − 9223372037 s, is archived. -/
theorem runClean_window_overflow_counterexample :
    staleTarget ["Done"] (sampleNow - overflowFeed.Expires * 1000000000) freshDonePage = false ∧
      (runCleanByStatus (cleanEnv [.Page freshDonePage]) sampleNow overflowFeed ["Done"]
        ()).1.calls = [Call.Search (searchRequest "X"), archiveCall freshDonePage] := by
  constructor
  · decide
  · decide

/-- C5, amended: for an expiry window that fits a `time.Duration` and a
candidate list in which no page with a target status has a Publish date
property with a nil date, `runCleanByStatus` returns no error and its
archives are, in candidate order, exactly the candidate pages whose Status
is in the target list, which have a Publish date with a start value, and
whose start is strictly before now − expiryWindow; a page whose status is
not in the target list or which has no Publish property is never one of
them. -/
theorem runClean_archives_stale_target_pages {σ : Type} (env : Env σ) (now : Time)
    (feed : Feed) (status : List String) (s : σ) (fd : gofeed.Feed)
    (results : List notionapi.Object)
    (hfetch : env.ParseURL feed.URL = .ok fd)
    (hsearch : env.client.SearchDo s (searchRequest (resolveTitle feed fd).Title) = .ok results)
    (hfits : DurationFits feed.Expires)
    (hdates : ∀ p ∈ candidatePages results,
      targetStatus status p = true → nilPublishDate p = false) :
    (runCleanByStatus env now feed status s).1.calls =
        Call.Search (searchRequest (resolveTitle feed fd).Title) ::
          ((candidatePages results).filter
            (staleTarget status (now - feed.Expires * 1000000000))).map archiveCall ∧
      (runCleanByStatus env now feed status s).2 = .returned none ∧
      (∀ (cutoff : Int) (p : notionapi.Page),
        (targetStatus status p = false ∨ mapGet p.Properties "Publish" = none) →
          staleTarget status cutoff p = false) := by
  have hloop := cleanLoop_calls env status (expiresAt now feed.Expires) results
    { store := s, calls := [Call.Search (searchRequest (resolveTitle feed fd).Title)],
      log := [] } hdates
  rw [expiresAt_of_fits now feed.Expires hfits] at hloop
  refine ⟨?_, ?_, ?_⟩
  · unfold runCleanByStatus
    simp only [hfetch, hsearch, resolveTitle_Expires,
      expiresAt_of_fits now feed.Expires hfits]
    simpa [statusMapOf] using hloop.1
  · unfold runCleanByStatus
    simp only [hfetch, hsearch, resolveTitle_Expires,
      expiresAt_of_fits now feed.Expires hfits]
    simpa [statusMapOf] using hloop.2
  · intro cutoff p h
    rcases h with h | h
    · simp [staleTarget, h]
    · simp [staleTarget, publishStart, h]

/-- Witness of the amended C5: of a fresh "Done" page, a stale "Todo" page,
an undated "Done" page and a stale "Done" page, only the last is archived. -/
theorem runClean_archives_stale_target_pages_witness :
    DurationFits sampleFeed.Expires ∧
      (∀ p ∈ candidatePages cleanResults,
        targetStatus ["Done"] p = true → nilPublishDate p = false) ∧
      (runCleanByStatus (cleanEnv cleanResults) sampleNow sampleFeed ["Done"] ()).1.calls =
        Call.Search (searchRequest
          (resolveTitle sampleFeed { Title := "X", Items := [] }).Title) ::
          ((candidatePages cleanResults).filter
            (staleTarget ["Done"] (sampleNow - sampleFeed.Expires * 1000000000))).map
              archiveCall :=
  ⟨by decide, by decide,
    (runClean_archives_stale_target_pages (cleanEnv cleanResults) sampleNow sampleFeed ["Done"]
      () { Title := "X", Items := [] } cleanResults rfl rfl (by decide) (by decide)).1⟩

/-- C6, as stated, fails: a fresh item without a link is created by the
first run on an empty store and created again by the second run, because a
record with an empty URL never enters the correlation map; the store holds
one record after the first run and two after the second. -/
theorem runPull_twice_linkless_counterexample :
    ((runPull (sampleStoreEnv [linklessItem]) sampleNow sampleFeed
        (runPull (sampleStoreEnv [linklessItem]) sampleNow sampleFeed []).1.store).1.calls.filter
          Call.isCreate).length = 1 ∧
      (runPull (sampleStoreEnv [linklessItem]) sampleNow sampleFeed []).1.store.length = 1 ∧
      (runPull (sampleStoreEnv [linklessItem]) sampleNow sampleFeed
        (runPull (sampleStoreEnv [linklessItem]) sampleNow sampleFeed []).1.store).1.store.length
          = 2 := by
  refine ⟨?_, ?_, ?_⟩ <;> decide

/-- C6, amended: when every fetched item that passes the freshness filter
has a non-empty link, running `runPull` twice with the same fetched feed and
the same current time, against a store in which every create succeeds and
search returns every record that is not archived (in any order, updates
failing or not), the second run issues no create, and the store holds as
many records after the second run as after the first. -/
theorem runPull_twice_issues_no_create (parse : String → Except String gofeed.Feed)
    (pageID : Nat → String) (order : List notionapi.Object → List notionapi.Object)
    (updateFails : Store → String → Bool) (databaseID : String) (now : Time) (feed : Feed)
    (s0 : Store) (fd : gofeed.Feed)
    (hinj : Function.Injective pageID)
    (horder : ∀ l x, x ∈ order l ↔ x ∈ l)
    (hfetch : parse feed.URL = .ok fd)
    (hlinks : ∀ item ∈ fd.Items,
      keptItem (expiresAt now feed.Expires) item = true → item.Link ≠ "") :
    (∀ c ∈ (runPull (storeEnv parse pageID order updateFails databaseID) now feed
        (runPull (storeEnv parse pageID order updateFails databaseID) now feed
          s0).1.store).1.calls, c.isCreate = false) ∧
      (runPull (storeEnv parse pageID order updateFails databaseID) now feed
        (runPull (storeEnv parse pageID order updateFails databaseID) now feed
          s0).1.store).1.store.length =
        (runPull (storeEnv parse pageID order updateFails databaseID) now feed
          s0).1.store.length := by
  have hlinked := buildLinks_Linked pageID order horder s0
  obtain ⟨hkeeps, hnew⟩ := pullLoop_storeEnv parse pageID order updateFails databaseID hinj
    (resolveTitle feed fd) _ (expiresAt now feed.Expires) s0 hlinked fd.Items
    { store := s0, calls := [Call.Search (searchRequest (resolveTitle feed fd).Title)],
      log := [] } (Keeps_refl s0)
  rw [← runPull_storeEnv parse pageID order updateFails databaseID now feed s0 fd hfetch]
    at hkeeps hnew
  generalize (runPull (storeEnv parse pageID order updateFails databaseID) now feed
    s0).1.store = s1 at hkeeps hnew ⊢
  have hall : ∀ item ∈ fd.Items, keptItem (expiresAt now feed.Expires) item = true →
      (mapGet (buildLinks (order (visibleFrom pageID 0 s1))) item.Link).isSome = true := by
    intro item hit hk
    apply buildLinks_isSome_of_hasURL pageID order horder s1 item.Link (hlinks item hit hk)
    cases hl : mapGet (buildLinks (order (visibleFrom pageID 0 s0))) item.Link with
    | none => exact hnew item hit hk hl
    | some id =>
      obtain ⟨j, r, hj, ha, _, hu⟩ := hlinked item.Link id hl
      exact hasURL_of_Keeps hkeeps _ ⟨j, r, hj, ha, hu⟩
  constructor
  · intro c hc
    rw [(runPull_calls (storeEnv parse pageID order updateFails databaseID) now feed s1 fd
      (order (visibleFrom pageID 0 s1)) hfetch rfl).1] at hc
    rcases List.mem_cons.1 hc with hc | hc
    · subst hc
      rfl
    · obtain ⟨item, hit, rfl⟩ := List.mem_map.1 hc
      obtain ⟨hmem, hk⟩ := List.mem_filter.1 hit
      obtain ⟨id, hid⟩ := Option.isSome_iff_exists.1 (hall item hmem hk)
      simp [pullWrite, hid, Call.isCreate]
  · rw [runPull_storeEnv parse pageID order updateFails databaseID now feed s1 fd hfetch]
    exact pullLoop_length parse pageID order updateFails databaseID (resolveTitle feed fd) _
      (expiresAt now feed.Expires) fd.Items hall _

/-- Witness of the amended C6: on a store that already holds the first
sample item, the second run over the sample items makes no create. -/
theorem runPull_twice_issues_no_create_witness :
    (∀ item ∈ sampleItems,
        keptItem (expiresAt sampleNow sampleFeed.Expires) item = true → item.Link ≠ "") ∧
      ∀ c ∈ (runPull (sampleStoreEnv sampleItems) sampleNow sampleFeed
          (runPull (sampleStoreEnv sampleItems) sampleNow sampleFeed
            sampleStore).1.store).1.calls, c.isCreate = false :=
  ⟨by decide,
    (runPull_twice_issues_no_create (fun _ => .ok { Title := "X", Items := sampleItems })
      pageIDOf List.reverse (fun _ _ => false) "db" sampleNow sampleFeed sampleStore
      { Title := "X", Items := sampleItems } pageIDOf_injective
      (fun _ _ => List.mem_reverse) rfl (by decide)).1⟩

/-- Beyond the range of `time.Duration` the item published exactly at
now − expiryWindow is excluded: with a window of 9223372037 seconds the
cutoff wraps into the future and the item gets no write. -/
theorem runPull_boundary_item_beyond_range :
    (runPull
        { ParseURL := fun _ =>
            .ok { Title := "X",
                  Items := [{ Title := "old", Link := "https://x/8",
                              PublishedParsed :=
                                some (sampleNow - overflowFeed.Expires * 1000000000) }] },
          client := succeedingClient [],
          notionDatabaseID := "db" }
        sampleNow overflowFeed ()).1.calls = [Call.Search (searchRequest "X")] := by
  decide

/-- The cleaner panics on a "Done" page whose Publish date property is
empty: it reads `publishProp.Date.Start` through the nil `Date`, the pass
ends there, and the stale "Done" page after it is not archived. -/
theorem runClean_nil_date_panics :
    (runCleanByStatus (cleanEnv [.Page emptyDateDonePage, .Page staleDonePage]) sampleNow
        sampleFeed ["Done"] ()).2 = .panicked ∧
      (runCleanByStatus (cleanEnv [.Page emptyDateDonePage, .Page staleDonePage]) sampleNow
        sampleFeed ["Done"] ()).1.calls = [Call.Search (searchRequest "X")] ∧
      staleTarget ["Done"] (sampleNow - sampleFeed.Expires * 1000000000) staleDonePage = true := by
  refine ⟨?_, ?_, ?_⟩ <;> decide

end RssInNotion
